import Mathlib

/-!
Shallow embedding of the technical-indicator engine, OHLC merge/cache logic
and derived-dataset builder of `api_server.py`, together with proofs of the
behavioural properties claimed for them.

Numbers are embedded as rationals (`ℚ`).  A Python sequence element is a
`PVal`: either the Python value `None`, the IEEE-754 `NaN` produced by numpy
when `None`-containing lists are converted with `np.array(..., float64)`,
or an actual number.  Rational arithmetic is exact, so the only NaN source
the embedded code has is that conversion; infinities are not producible by
the embedded operations and are therefore not represented.
-/

/-- A Python value stored in an indicator output list: `None`, a float `NaN`,
or a finite number (embedded as a rational). -/
inductive PVal where
  | none : PVal
  | nan  : PVal
  | num  : ℚ → PVal
deriving DecidableEq

namespace PVal

/-- Conversion `np.array(xs, dtype=np.float64)` turns the Python value `None` into `NaN`
and leaves numbers unchanged. -/
def toNan : PVal → PVal
  | .none => .nan
  | v     => v

/-- Float addition after array conversion: NaN-propagating. -/
def add : PVal → PVal → PVal
  | .num a, .num b => .num (a + b)
  | _, _ => .nan

/-- Float subtraction: NaN-propagating. -/
def sub : PVal → PVal → PVal
  | .num a, .num b => .num (a - b)
  | _, _ => .nan

/-- Multiply a float by a scalar: NaN-propagating. -/
def mulQ : PVal → ℚ → PVal
  | .num a, q => .num (a * q)
  | _, _ => .nan

/-- Divide a float by a scalar: NaN-propagating. -/
def divQ : PVal → ℚ → PVal
  | .num a, q => .num (a / q)
  | _, _ => .nan

/-- Float division by a float: NaN-propagating. -/
def divP : PVal → PVal → PVal
  | .num a, .num b => .num (a / b)
  | _, _ => .nan

/-- Python `x or 0` as used on smoothed-DM entries in `calculate_adx`:
`None` (falsy) becomes `0`, numbers are kept (`0.0 or 0` is `0`, the same
value).  NaN is truthy in Python and is kept. -/
def orZero : PVal → PVal
  | .none => .num 0
  | v     => v

@[simp] theorem add_nan (v : PVal) : add v .nan = .nan := by cases v <;> rfl

@[simp] theorem nan_add (v : PVal) : add .nan v = .nan := rfl

@[simp] theorem add_num_num (a b : ℚ) : add (.num a) (.num b) = .num (a + b) := rfl

@[simp] theorem sub_num_num (a b : ℚ) : sub (.num a) (.num b) = .num (a - b) := rfl

@[simp] theorem sub_nan_left (v : PVal) : sub .nan v = .nan := rfl

@[simp] theorem mulQ_num (a q : ℚ) : mulQ (.num a) q = .num (a * q) := rfl

@[simp] theorem divQ_num (a q : ℚ) : divQ (.num a) q = .num (a / q) := rfl

@[simp] theorem divQ_nan (q : ℚ) : divQ .nan q = .nan := rfl

@[simp] theorem divP_num_num (a b : ℚ) : divP (.num a) (.num b) = .num (a / b) := rfl

@[simp] theorem toNan_num (a : ℚ) : toNan (.num a) = .num a := rfl

@[simp] theorem toNan_none : toNan .none = .nan := rfl

@[simp] theorem toNan_nan : toNan .nan = .nan := rfl

@[simp] theorem orZero_num (a : ℚ) : orZero (.num a) = .num a := rfl

@[simp] theorem orZero_none : orZero .none = .num 0 := rfl

@[simp] theorem num_ne_nan (a : ℚ) : (PVal.num a = PVal.nan) ↔ False := by
  simp only [iff_false]
  intro h
  cases h

@[simp] theorem num_ne_none (a : ℚ) : (PVal.num a = PVal.none) ↔ False := by
  simp only [iff_false]
  intro h
  cases h

@[simp] theorem nan_ne_none : (PVal.nan = PVal.none) ↔ False := by
  simp only [iff_false]
  intro h
  cases h

@[simp] theorem none_ne_nan : (PVal.none = PVal.nan) ↔ False := by
  simp only [iff_false]
  intro h
  cases h

@[simp] theorem nan_eq_nan : (PVal.nan = PVal.nan) ↔ True := by simp

@[simp] theorem none_eq_none : (PVal.none = PVal.none) ↔ True := by simp

end PVal

/-- Sum of a list of converted floats, as `np.cumsum`/`np.sum` folds it. -/
def psum (l : List PVal) : PVal := l.foldl PVal.add (PVal.num 0)

/-- Prefix sums `np.insert(np.cumsum(arr), 0, 0)`: the running sums of `arr` with a
leading `0`; entry `i` is the sum of the first `i` elements. -/
def cumsum0 (l : List PVal) : List PVal := l.scanl PVal.add (PVal.num 0)

/-- Embeds `calculate_sma(prices, period)` from `api_server.py`.  Inputs are kept as
`PVal` because the program also calls this on a `None`-containing list (the
Stochastic `%K` series); `np.array` turns those `None`s into NaN.  The
`period = 0` case (on which numpy would raise a broadcast error) is never
exercised by the program and is outside every theorem below. -/
def calculate_sma (prices : List PVal) (period : ℕ) : List PVal :=
  if prices.length < period then List.replicate prices.length PVal.none
  else
    let cumsum := cumsum0 (prices.map PVal.toNan)
    let smaValues := List.zipWith (fun a b => (a.sub b).divQ period)
      (cumsum.drop period) (cumsum.take (cumsum.length - period))
    List.replicate (period - 1) PVal.none ++ smaValues

/-- Embeds `calculate_ema(prices, period)` from `api_server.py`: seed with the mean
of the first `period` entries at index `period - 1`, then the recurrence
`ema[i] = (x[i] - ema[i-1])·mult + ema[i-1]`; positions before the seed are
`np.nan` and the final list comprehension converts every NaN to `None`. -/
def calculate_ema (prices : List PVal) (period : ℕ) : List PVal :=
  if prices.length < period then List.replicate prices.length PVal.none
  else
    let arr := prices.map PVal.toNan
    let mult : ℚ := 2 / ((period : ℚ) + 1)
    let seed := (psum (arr.take period)).divQ period
    let emaVals := (arr.drop period).scanl
      (fun prev x => ((x.sub prev).mulQ mult).add prev) seed
    (List.replicate (period - 1) PVal.nan ++ emaVals).map
      (fun x => if x = PVal.nan then PVal.none else x)

/-- The per-delta gains `np.where(deltas > 0, deltas, 0)` of `calculate_rsi`. -/
def rsiGains (prices : List ℚ) : List ℚ :=
  (List.zipWith (fun b a => b - a) (prices.drop 1) prices).map
    (fun d => if 0 < d then d else 0)

/-- The per-delta losses `np.where(deltas < 0, -deltas, 0)` of `calculate_rsi`. -/
def rsiLosses (prices : List ℚ) : List ℚ :=
  (List.zipWith (fun b a => b - a) (prices.drop 1) prices).map
    (fun d => if d < 0 then -d else 0)

/-- The Wilder-smoothed average of a delta-indexed series as `calculate_rsi`
builds it: a `np.zeros` array whose entry `period - 1` is the simple mean of
the first `period` entries and whose later entries follow
`(prev·(period-1) + current)/period`. -/
def wilderAvg (xs : List ℚ) (period : ℕ) : List ℚ :=
  List.replicate (period - 1) 0 ++
    (xs.drop period).scanl
      (fun prev g => (prev * ((period : ℚ) - 1) + g) / period)
      ((xs.take period).sum / period)

/-- The `avg_gain` array of `calculate_rsi`. -/
def rsiAvgGain (prices : List ℚ) (period : ℕ) : List ℚ :=
  wilderAvg (rsiGains prices) period

/-- The `avg_loss` array of `calculate_rsi`. -/
def rsiAvgLoss (prices : List ℚ) (period : ℕ) : List ℚ :=
  wilderAvg (rsiLosses prices) period

/-- The `rsi_values` array of `calculate_rsi` after the final
`np.where(avg_loss == 0, 100, ...)`: `np.divide(..., out=np.zeros_like(..),
where=avg_loss != 0)` leaves `rs = 0` where `avg_loss = 0`, exactly as
rational division by zero does. -/
def rsiValues (prices : List ℚ) (period : ℕ) : List ℚ :=
  (List.range (prices.length - 1)).map fun j =>
    let ag := (rsiAvgGain prices period).getD j 0
    let al := (rsiAvgLoss prices period).getD j 0
    if al = 0 then 100 else 100 - 100 / (1 + ag / al)

/-- Embeds `calculate_rsi(prices, period)` from `api_server.py`. -/
def calculate_rsi (prices : List ℚ) (period : ℕ) : List PVal :=
  if prices.length < period + 1 then List.replicate prices.length PVal.none
  else
    List.replicate period PVal.none ++
      ((rsiValues prices period).drop (period - 1)).map PVal.num

theorem sma_test : calculate_sma [PVal.num 1, PVal.num 2, PVal.num 3] 2 =
    [PVal.none, PVal.num (3/2), PVal.num (5/2)] := by
  norm_num [calculate_sma, cumsum0, List.scanl]

theorem ema_test : calculate_ema [PVal.num 1, PVal.num 2, PVal.num 3] 3 =
    [PVal.none, PVal.none, PVal.num 2] := by
  norm_num [calculate_ema, psum, List.scanl, List.replicate_succ]

theorem rsi_test : calculate_rsi [1, 2, 3] 2 =
    [PVal.none, PVal.none, PVal.num 100] := by
  norm_num [calculate_rsi, rsiValues, rsiAvgGain, rsiAvgLoss, wilderAvg,
    rsiGains, rsiLosses, List.scanl, List.range_succ, List.replicate_succ]

/-- The `None`-guarded pointwise subtraction used for the MACD line and
histogram: `None if a is None or b is None else a - b`.  (NaN floats are not
`None` in Python, so they fall through to the subtraction.) -/
def optSub (a b : PVal) : PVal :=
  if a = PVal.none then PVal.none
  else if b = PVal.none then PVal.none
  else a.sub b

/-- Embeds `calculate_macd(prices, fast, slow, signal)` from `api_server.py`,
returning `(macd_line, signal_line, histogram)`. -/
def calculate_macd (prices : List ℚ) (fast slow signal : ℕ) :
    List PVal × List PVal × List PVal :=
  let n := prices.length
  if n < slow then
    (List.replicate n PVal.none, List.replicate n PVal.none,
      List.replicate n PVal.none)
  else
    let pv := prices.map PVal.num
    let emaFast := calculate_ema pv fast
    let emaSlow := calculate_ema pv slow
    let macdLine := (List.range n).map fun i =>
      optSub (emaFast.getD i PVal.none) (emaSlow.getD i PVal.none)
    let validMacd := macdLine.filter (fun x => !(x = PVal.none : Bool))
    if validMacd.length < signal then
      (macdLine, List.replicate n PVal.none, List.replicate n PVal.none)
    else
      let signalLine := List.replicate (slow - 1) PVal.none ++
        calculate_ema (macdLine.drop (slow - 1)) signal
      let histogram := (List.range n).map fun i =>
        optSub (macdLine.getD i PVal.none) (signalLine.getD i PVal.none)
      (macdLine, signalLine, histogram)

/-- Python `max` of a non-empty Python list (`max(xs)`); the default for the empty
list is never used by the program. -/
def listMax (l : List ℚ) : ℚ := l.foldl max (l.headD 0)

/-- Python `min` of a non-empty Python list (`min(xs)`). -/
def listMin (l : List ℚ) : ℚ := l.foldl min (l.headD 0)

/-- The trailing window `xs[i-period+1 : i+1]` of a Python list. -/
def window (xs : List ℚ) (period i : ℕ) : List ℚ :=
  (xs.drop (i + 1 - period)).take period

/-- Embeds `calculate_bollinger_bands(prices, period, std_dev)` from `api_server.py`,
returning `(upper, middle, lower)`.  `np.std` takes a real square root, which
is not rational; the embedding therefore abstracts the population standard
deviation of a window as the parameter `std`.  No claim below depends on the
numeric value of a band, only on the shape of the output. -/
def calculate_bollinger_bands (std : List ℚ → ℚ) (prices : List ℚ)
    (period : ℕ) (std_dev : ℚ) : List PVal × List PVal × List PVal :=
  let n := prices.length
  if n < period then
    (List.replicate n PVal.none, List.replicate n PVal.none,
      List.replicate n PVal.none)
  else
    let middle := calculate_sma (prices.map PVal.num) period
    let upper := (List.range n).map fun i =>
      if i < period - 1 then PVal.none
      else (middle.getD i PVal.none).add (PVal.num (std_dev * std (window prices period i)))
    let lower := (List.range n).map fun i =>
      if i < period - 1 then PVal.none
      else (middle.getD i PVal.none).sub (PVal.num (std_dev * std (window prices period i)))
    (upper, middle, lower)

/-- The `tr` list shared by `calculate_atr` and `calculate_adx`: the first
true range is `high[0] - low[0]`, later ones are
`max(high-low, |high-prevClose|, |low-prevClose|)`. -/
def trueRanges (highs lows closes : List ℚ) : List ℚ :=
  (List.range closes.length).map fun i =>
    if i = 0 then highs.getD 0 0 - lows.getD 0 0
    else max (highs.getD i 0 - lows.getD i 0)
      (max |highs.getD i 0 - closes.getD (i - 1) 0| |lows.getD i 0 - closes.getD (i - 1) 0|)

/-- Embeds `calculate_atr(highs, lows, closes, period)` from `api_server.py`: seed at
index `period - 1` with the simple mean of the first `period` true ranges,
then Wilder smoothing `(prevATR·(period-1) + tr)/period`. -/
def calculate_atr (highs lows closes : List ℚ) (period : ℕ) : List PVal :=
  if closes.length < period + 1 then List.replicate closes.length PVal.none
  else
    let tr := trueRanges highs lows closes
    List.replicate (period - 1) PVal.none ++
      ((tr.drop period).scanl
        (fun prev t => (prev * ((period : ℚ) - 1) + t) / period)
        ((tr.take period).sum / period)).map PVal.num

/-- Typical prices `[(h+l+c)/3 for h, l, c in zip(highs, lows, closes)]`. -/
def typicalPrices (highs lows closes : List ℚ) : List ℚ :=
  List.zipWith (fun hl c => (hl.1 + hl.2 + c) / 3) (highs.zip lows) closes

/-- Embeds `calculate_vwap(highs, lows, closes, volumes)` from `api_server.py`:
cumulative `Σ(typical·volume) / Σvolume`, `None` while the cumulative volume
is not positive. -/
def calculate_vwap (highs lows closes volumes : List ℚ) : List PVal :=
  if closes.length = 0 then []
  else
    let typical := typicalPrices highs lows closes
    (List.range closes.length).map fun i =>
      let ctpv := ((List.range (i + 1)).map fun j =>
        typical.getD j 0 * volumes.getD j 0).sum
      let cvol := ((List.range (i + 1)).map fun j => volumes.getD j 0).sum
      if 0 < cvol then PVal.num (ctpv / cvol) else PVal.none

/-- The `%K` series of `calculate_stochastic`. -/
def stochK (highs lows closes : List ℚ) (k_period : ℕ) : List PVal :=
  (List.range closes.length).map fun i =>
    if i < k_period - 1 then PVal.none
    else
      let hh := listMax (window highs k_period i)
      let ll := listMin (window lows k_period i)
      if hh - ll = 0 then PVal.num 50
      else PVal.num (100 * (closes.getD i 0 - ll) / (hh - ll))

/-- Embeds `calculate_stochastic(highs, lows, closes, k_period, d_period)` from
`api_server.py`, returning `(%K, %D)`; `%D` is `calculate_sma` applied to the
`None`-containing `%K` list. -/
def calculate_stochastic (highs lows closes : List ℚ) (k_period d_period : ℕ) :
    List PVal × List PVal :=
  if closes.length < k_period then
    (List.replicate closes.length PVal.none, List.replicate closes.length PVal.none)
  else
    let kValues := stochK highs lows closes k_period
    (kValues, calculate_sma kValues d_period)

/-- Embeds `calculate_obv(closes, volumes)` from `api_server.py`: running sum seeded
with `volumes[0]`; shorter-than-2 input yields a list of zeros (not `None`). -/
def calculate_obv (closes volumes : List ℚ) : List PVal :=
  if closes.length < 2 then List.replicate closes.length (PVal.num 0)
  else
    (((closes.drop 1).zip closes).zip (volumes.drop 1)).scanl
      (fun prev cv =>
        if cv.1.2 < cv.1.1 then prev + cv.2
        else if cv.1.1 < cv.1.2 then prev - cv.2
        else prev)
      (volumes.headD 0) |>.map PVal.num

/-- Embeds `calculate_mfi(highs, lows, closes, volumes, period)` from
`api_server.py`. -/
def calculate_mfi (highs lows closes volumes : List ℚ) (period : ℕ) : List PVal :=
  if closes.length < period + 1 then List.replicate closes.length PVal.none
  else
    let typical := typicalPrices highs lows closes
    let raw := List.zipWith (fun tp v => tp * v) typical volumes
    (List.range closes.length).map fun i =>
      if i < period then PVal.none
      else
        let idxs := (List.range' (i + 1 - period) period).filter (fun j => 0 < j)
        let pos := ((idxs.filter fun j =>
          typical.getD (j - 1) 0 < typical.getD j 0).map fun j => raw.getD j 0).sum
        let neg := ((idxs.filter fun j =>
          typical.getD j 0 < typical.getD (j - 1) 0).map fun j => raw.getD j 0).sum
        if neg = 0 then PVal.num 100
        else PVal.num (100 - 100 / (1 + pos / neg))

/-- Embeds `calculate_cci(highs, lows, closes, period)` from `api_server.py`. -/
def calculate_cci (highs lows closes : List ℚ) (period : ℕ) : List PVal :=
  if closes.length < period then List.replicate closes.length PVal.none
  else
    let typical := typicalPrices highs lows closes
    (List.range closes.length).map fun i =>
      if i < period - 1 then PVal.none
      else
        let slice := window typical period i
        let smaTp := slice.sum / period
        let meanDev := (slice.map fun tp => |tp - smaTp|).sum / period
        if meanDev = 0 then PVal.num 0
        else PVal.num ((typical.getD i 0 - smaTp) / ((0.015 : ℚ) * meanDev))

/-- Embeds `calculate_williams_r(highs, lows, closes, period)` from `api_server.py`. -/
def calculate_williams_r (highs lows closes : List ℚ) (period : ℕ) : List PVal :=
  if closes.length < period then List.replicate closes.length PVal.none
  else
    (List.range closes.length).map fun i =>
      if i < period - 1 then PVal.none
      else
        let hh := listMax (window highs period i)
        let ll := listMin (window lows period i)
        if hh - ll = 0 then PVal.num (-50)
        else PVal.num (-100 * (hh - closes.getD i 0) / (hh - ll))

/-- Absolute value of a float: NaN-propagating. -/
def PVal.absP : PVal → PVal
  | .num a => .num |a|
  | _ => .nan

/-- The `+DM` list of `calculate_adx` (`plus_dm`). -/
def adxPlusDm (highs lows : List ℚ) (n : ℕ) : List ℚ :=
  (List.range n).map fun i =>
    if i = 0 then 0
    else
      let hd := highs.getD i 0 - highs.getD (i - 1) 0
      let ld := lows.getD (i - 1) 0 - lows.getD i 0
      if ld < hd ∧ 0 < hd then hd else 0

/-- The `-DM` list of `calculate_adx` (`minus_dm`). -/
def adxMinusDm (highs lows : List ℚ) (n : ℕ) : List ℚ :=
  (List.range n).map fun i =>
    if i = 0 then 0
    else
      let hd := highs.getD i 0 - highs.getD (i - 1) 0
      let ld := lows.getD (i - 1) 0 - lows.getD i 0
      if hd < ld ∧ 0 < ld then ld else 0

/-- Embeds `calculate_adx(highs, lows, closes, period)` from `api_server.py`,
returning `(adx, plus_di, minus_di)`. -/
def calculate_adx (highs lows closes : List ℚ) (period : ℕ) :
    List PVal × List PVal × List PVal :=
  let n := closes.length
  if n < period * 2 then
    (List.replicate n PVal.none, List.replicate n PVal.none,
      List.replicate n PVal.none)
  else
    let tr := trueRanges highs lows closes
    let atr := calculate_ema (tr.map PVal.num) period
    let sp := calculate_ema ((adxPlusDm highs lows n).map PVal.num) period
    let sm := calculate_ema ((adxMinusDm highs lows n).map PVal.num) period
    let bad := fun i =>
      atr.getD i PVal.none = PVal.none ∨ atr.getD i PVal.none = PVal.num 0
    let pdiAt := fun i =>
      (((sp.getD i PVal.none).orZero).mulQ 100).divP (atr.getD i PVal.none)
    let mdiAt := fun i =>
      (((sm.getD i PVal.none).orZero).mulQ 100).divP (atr.getD i PVal.none)
    let plusDi := (List.range n).map fun i => if bad i then PVal.none else pdiAt i
    let minusDi := (List.range n).map fun i => if bad i then PVal.none else mdiAt i
    let dx := (List.range n).map fun i =>
      if bad i then PVal.none
      else
        let p := pdiAt i
        let m := mdiAt i
        if p.add m = PVal.num 0 then PVal.num 0
        else (((p.sub m).absP).mulQ 100).divP (p.add m)
    let adx := calculate_ema
      (dx.map fun d => if d = PVal.none then PVal.num 0 else d) period
    (adx, plusDi, minusDi)

/-- The five Ichimoku output series, all index-aligned to the input. -/
structure IchimokuOut where
  tenkan_sen : List PVal
  kijun_sen : List PVal
  senkou_a : List PVal
  senkou_b : List PVal
  chikou_span : List PVal
deriving DecidableEq

/-- The inner helper `period_high_low_avg` of `calculate_ichimoku`: midpoint
of the trailing high/low window, `None` before the lookback. -/
def periodHighLowAvg (highs lows : List ℚ) (period i : ℕ) : PVal :=
  if i < period - 1 then PVal.none
  else PVal.num ((listMax (window highs period i) + listMin (window lows period i)) / 2)

/-- One Senkou A candidate of `calculate_ichimoku`: appended only when both
the tenkan and kijun entries at `i` are not `None`. -/
def ichiSenkouAEntry (ts ks : List PVal) (i : ℕ) : Option PVal :=
  let a := ts.getD i PVal.none
  let b := ks.getD i PVal.none
  if a = PVal.none ∨ b = PVal.none then Option.none
  else some ((a.add b).divQ 2)

/-- Embeds `calculate_ichimoku(highs, lows, closes, tenkan, kijun, senkou_b)` from
`api_server.py`.  Senkou A appends a value only where both tenkan and kijun
are defined (a `filterMap`), after a forward shift of `kijun` `None`s, and is
truncated to the input length, as is Senkou B. -/
def calculate_ichimoku (highs lows closes : List ℚ)
    (tenkan kijun senkou_b : ℕ) : IchimokuOut :=
  let n := closes.length
  if n < senkou_b then
    ⟨List.replicate n PVal.none, List.replicate n PVal.none,
      List.replicate n PVal.none, List.replicate n PVal.none,
      List.replicate n PVal.none⟩
  else
    let ts := (List.range n).map (periodHighLowAvg highs lows tenkan)
    let ks := (List.range n).map (periodHighLowAvg highs lows kijun)
    let sa := (List.replicate kijun PVal.none ++
      (List.range n).filterMap (ichiSenkouAEntry ts ks)).take n
    let sb := (List.replicate kijun PVal.none ++
      (List.range n).map (periodHighLowAvg highs lows senkou_b)).take n
    let ck := (closes.drop kijun).map PVal.num ++ List.replicate kijun PVal.none
    ⟨ts, ks, sa, sb, ck⟩

/-- One OHLC candle (the Python dict `{time, open, high, low, close,
volume}`; the `open` field is renamed `opn` because `open` is a Lean
keyword). -/
structure Candle where
  time : ℤ
  opn : ℚ
  high : ℚ
  low : ℚ
  close : ℚ
  volume : ℚ
deriving DecidableEq

/-- One insertion into a Python dict keyed by `time`: an existing entry with
the same key is overwritten in place (insertion order preserved), a new key
is appended. -/
def dictUpsert (m : List Candle) (c : Candle) : List Candle :=
  if m.any (fun x => x.time = c.time) then
    m.map (fun x => if x.time = c.time then c else x)
  else m ++ [c]

/-- Builds `{item['time']: item for item in l}`: a Python dict built from `l`,
as its insertion-ordered value list. -/
def dictOfList (l : List Candle) : List Candle := l.foldl dictUpsert []

/-- Stable sort `sorted(xs, key=lambda x: x['time'])`: Python's stable ascending sort. -/
def sortByTime (l : List Candle) : List Candle :=
  l.mergeSort (fun a b => a.time ≤ b.time)

/-- Embeds `merge_and_dedupe_ohlc(old_data, new_data)` from `api_server.py`: an
empty (or `None`, which is equally falsy) side short-circuits; otherwise a
dict keyed by `time` is built from the old data, overwritten by the new
data, and its values are sorted ascending by `time`. -/
def merge_and_dedupe_ohlc (old_data new_data : List Candle) : List Candle :=
  if old_data = [] then new_data
  else if new_data = [] then old_data
  else sortByTime (new_data.foldl dictUpsert (dictOfList old_data))

/-- A derived dataset: the Python dict mapping series names to columns, as
an insertion-ordered association list. -/
abbrev FullData : Type := List (String × List PVal)

/-- Embeds `sanitize_for_json(data_dict)` from `api_server.py`: every NaN (or
infinity — not producible in this rational embedding) float inside a list
value is replaced by `None`; other values pass through. -/
def sanitize_for_json (d : FullData) : FullData :=
  d.map fun kv =>
    (kv.1, kv.2.map fun v => if v = PVal.nan then PVal.none else v)

/-- Embeds `build_full_data_cache(ohlc)` from `api_server.py`: `None` for an empty
or shorter-than-50 series, otherwise the flat dict of raw columns and every
pre-computed indicator series.  `std` abstracts `np.std` (see
`calculate_bollinger_bands`). -/
def build_full_data_cache (std : List ℚ → ℚ) (ohlc : List Candle) :
    Option FullData :=
  if ohlc = [] ∨ ohlc.length < 50 then Option.none
  else
    let times := ohlc.map fun c => ((c.time : ℚ))
    let opens := ohlc.map Candle.opn
    let highs := ohlc.map Candle.high
    let lows := ohlc.map Candle.low
    let closes := ohlc.map Candle.close
    let volumes := ohlc.map Candle.volume
    let pvClo := closes.map PVal.num
    let macd3 := calculate_macd closes 12 26 9
    let bb3 := calculate_bollinger_bands std closes 20 2
    let stoch2 := calculate_stochastic highs lows closes 14 3
    let adx3 := calculate_adx highs lows closes 14
    some [
      ("time", times.map PVal.num),
      ("open", opens.map PVal.num),
      ("high", highs.map PVal.num),
      ("low", lows.map PVal.num),
      ("close", pvClo),
      ("volume", volumes.map PVal.num),
      ("sma_20", calculate_sma pvClo 20),
      ("sma_50", calculate_sma pvClo 50),
      ("sma_200", calculate_sma pvClo 200),
      ("ema_12", calculate_ema pvClo 12),
      ("ema_26", calculate_ema pvClo 26),
      ("rsi", calculate_rsi closes 14),
      ("macd", macd3.1),
      ("macd_signal", macd3.2.1),
      ("macd_histogram", macd3.2.2),
      ("bb_upper", bb3.1),
      ("bb_middle", bb3.2.1),
      ("bb_lower", bb3.2.2),
      ("atr", calculate_atr highs lows closes 14),
      ("stoch_k", stoch2.1),
      ("stoch_d", stoch2.2),
      ("obv", calculate_obv closes volumes),
      ("mfi", calculate_mfi highs lows closes volumes 14),
      ("cci", calculate_cci highs lows closes 20),
      ("williams_r", calculate_williams_r highs lows closes 14),
      ("adx", adx3.1),
      ("plus_di", adx3.2.1),
      ("minus_di", adx3.2.2),
      ("vwap", calculate_vwap highs lows closes volumes)]

/-- The fixed key list of every dataset `build_full_data_cache` returns. -/
def fullDataKeys : List String :=
  ["time", "open", "high", "low", "close", "volume", "sma_20", "sma_50",
   "sma_200", "ema_12", "ema_26", "rsi", "macd", "macd_signal",
   "macd_histogram", "bb_upper", "bb_middle", "bb_lower", "atr", "stoch_k",
   "stoch_d", "obv", "mfi", "cci", "williams_r", "adx", "plus_di",
   "minus_di", "vwap"]

/-- Computes `get_last_cached_timestamp()` over a non-empty cache:
`max(item['time'] for item in cached)`. -/
def lastCachedTimestamp (cached : List Candle) : ℤ :=
  ((cached.map Candle.time).max?).getD 0

/-- The external-world outcomes `get_btc_ohlc_with_cache` can observe in one
call.  Each fetcher is `Option.none` when the source failed (returned `None`
after an exception, a non-200 status, or a missing API key). -/
structure OhlcEnv where
  /-- `load_btc_cache()`: the durable parquet snapshot, `Option.none` when
  absent, unreadable, or in serverless mode. -/
  cached : Option (List Candle)
  /-- `BTC_CACHE_LAST_UPDATE` is set and less than 300 seconds old. -/
  cacheFresh : Bool
  /-- `fetch_incremental_btc_data(last_ts)`: `Option.none` on failure (or a
  missing API key), `some []` meaning already up to date, else new candles. -/
  incremental : Option (List Candle)
  /-- `fetch_polygon_btc_ohlc(365)`. -/
  polygon : Option (List Candle)
  /-- `fetch_kraken_btc_ohlc()`. -/
  kraken : Option (List Candle)

/-- The full-fetch tail of `get_btc_ohlc_with_cache`: primary source, then
fallback source, then the stale snapshot, then empty. -/
def ohlcFullFetch (env : OhlcEnv) (cached : List Candle) : List Candle :=
  let o1 := env.polygon.getD []
  let o2 := if o1 = [] then env.kraken.getD [] else o1
  if o2 ≠ [] then o2
  else if cached ≠ [] then cached
  else []

/-- Embeds `get_btc_ohlc_with_cache()` from `api_server.py` as a pure function of
the observed environment (a Python `None` snapshot and an empty snapshot are
both falsy and behave identically, so the snapshot is read through
`Option.getD`); the parquet write-back and timestamp update are effects on
the next call's environment and are not part of the returned series. -/
def get_btc_ohlc_with_cache (env : OhlcEnv) : List Candle :=
  let cached := env.cached.getD []
  if env.cacheFresh ∧ cached ≠ [] then cached
  else if cached ≠ [] ∧ lastCachedTimestamp cached ≠ 0 then
    match env.incremental with
    | some newData =>
        if newData ≠ [] then merge_and_dedupe_ohlc cached newData else cached
    | Option.none => ohlcFullFetch env cached
  else ohlcFullFetch env cached

/-- The environment of one `get_full_chart_data` /
`get_bitcoin_chart_data` call. -/
structure ChartEnv where
  /-- `MEMORY_CACHE['full_data']` at entry. -/
  memory : Option FullData
  /-- `current_time - MEMORY_CACHE['last_update'] < 300`. -/
  memoryFresh : Bool
  /-- The raw full-data parquet content (`df.to_dict('list')`), before
  sanitization; `Option.none` when the file is absent, unreadable, or in
  serverless mode. -/
  parquetFull : Option FullData
  /-- What the OHLC store observes if tier 3 has to fetch. -/
  ohlc : OhlcEnv
  /-- The `np.std` abstraction threaded into the builder. -/
  std : List ℚ → ℚ

/-- Embeds `save_full_data_cache(data_dict)` from `api_server.py`, as its effect on
the memory tier: the memory cache always receives the sanitized dataset (the
parquet write of the raw dataset is durable-tier state, not modeled here). -/
def save_full_data_cache (d : FullData) : Option FullData :=
  some (sanitize_for_json d)

/-- Embeds `load_full_data_cache()` from `api_server.py`: memory tier first
(returned as-is, no freshness check), else the parquet tier sanitized and
written back into memory.  Returns `(result, memory-after-call)`. -/
def load_full_data_cache (memory parquetRaw : Option FullData) :
    Option FullData × Option FullData :=
  match memory with
  | some d => (some d, some d)
  | Option.none =>
    match parquetRaw with
    | some raw => (some (sanitize_for_json raw), some (sanitize_for_json raw))
    | Option.none => (Option.none, Option.none)

/-- Embeds `get_full_chart_data()` from `api_server.py`: fresh memory tier, else
`load_full_data_cache` (which also serves a stale memory tier), else fetch
OHLC and rebuild.  Returns `(result, memory-after-call)`. -/
def get_full_chart_data (env : ChartEnv) : Option FullData × Option FullData :=
  if env.memory ≠ Option.none ∧ env.memoryFresh then (env.memory, env.memory)
  else
    let lc := load_full_data_cache env.memory env.parquetFull
    match lc.1 with
    | some d => (some d, lc.2)
    | Option.none =>
      let ohlc := get_btc_ohlc_with_cache env.ohlc
      if ohlc ≠ [] then
        match build_full_data_cache env.std ohlc with
        | some full => (some full, save_full_data_cache full)
        | Option.none => (Option.none, lc.2)
      else (Option.none, lc.2)

/-- The observable outcome of the `/api/bitcoin-chart-data` handler: either
the explicit `{'error': 'No data available', 'ohlc': [], 'indicators': {}}`
response, or a response assembled from a full dataset (candles, indicator
series, levels — the assembly itself adds no data beyond the dataset). -/
inductive ChartResult where
  | noData
  | ok (d : FullData)
deriving DecidableEq

/-- Embeds `get_bitcoin_chart_data()` from `api_server.py` (the handler body inside
the response-cache decorator): the tiered lookup, one direct fallback
rebuild, and the explicit no-data response when even that yields nothing.
Returns `(result, memory-after-call)`. -/
def get_bitcoin_chart_data (env : ChartEnv) : ChartResult × Option FullData :=
  let g := get_full_chart_data env
  match g.1 with
  | some d => (ChartResult.ok d, g.2)
  | Option.none =>
    let ohlc := get_btc_ohlc_with_cache env.ohlc
    if ohlc = [] then (ChartResult.noData, g.2)
    else
      match build_full_data_cache env.std ohlc with
      | some full => (ChartResult.ok full, save_full_data_cache full)
      | Option.none => (ChartResult.noData, g.2)

/-- A dataset is sanitized when no element of any of its columns is a NaN
(or infinity, which the rational embedding cannot produce at all). -/
def SanitizedData (d : FullData) : Prop :=
  ∀ kv ∈ d, ∀ v ∈ kv.2, v ≠ PVal.nan

/-- The memory-tier invariant of claim C10: whatever the memory cache holds
is sanitized. -/
def MemInv (m : Option FullData) : Prop :=
  ∀ d, m = some d → SanitizedData d

/-! ### Structural lemmas about the indicator shapes -/

theorem cumsum0_length (l : List PVal) : (cumsum0 l).length = l.length + 1 := by
  simp [cumsum0, List.length_scanl]

theorem sma_length (l : List PVal) (p : ℕ) (hp : 1 ≤ p) :
    (calculate_sma l p).length = l.length := by
  unfold calculate_sma
  by_cases h : l.length < p
  · simp [h]
  · simp only [h, if_false]
    simp [cumsum0_length]
    omega

theorem sma_prefix_undef (l : List PVal) (p i : ℕ) (hi : i < p - 1)
    (hil : i < l.length) : (calculate_sma l p)[i]? = some PVal.none := by
  unfold calculate_sma
  by_cases h : l.length < p
  · simp [h, hil]
  · simp only [h, if_false]
    rw [List.getElem?_append_left (by simpa using hi)]
    simp [hi]

theorem ema_length (l : List PVal) (p : ℕ) (hp : 1 ≤ p) :
    (calculate_ema l p).length = l.length := by
  unfold calculate_ema
  by_cases h : l.length < p
  · simp [h]
  · simp only [h, if_false]
    simp [List.length_scanl]
    omega

theorem ema_prefix_undef (l : List PVal) (p i : ℕ) (hi : i < p - 1)
    (hil : i < l.length) : (calculate_ema l p)[i]? = some PVal.none := by
  unfold calculate_ema
  by_cases h : l.length < p
  · simp [h, hil]
  · simp only [h, if_false]
    rw [List.getElem?_map]
    rw [List.getElem?_append_left (by simpa using hi)]
    simp [hi]

theorem rsiValues_length (pr : List ℚ) (p : ℕ) :
    (rsiValues pr p).length = pr.length - 1 := by
  simp [rsiValues]

theorem rsi_length (pr : List ℚ) (p : ℕ) (hp : 1 ≤ p) :
    (calculate_rsi pr p).length = pr.length := by
  unfold calculate_rsi
  by_cases h : pr.length < p + 1
  · simp [h]
  · simp only [h, if_false]
    simp [rsiValues_length]
    omega

theorem rsi_prefix_undef (pr : List ℚ) (p i : ℕ) (hi : i < p)
    (hil : i < pr.length) : (calculate_rsi pr p)[i]? = some PVal.none := by
  unfold calculate_rsi
  by_cases h : pr.length < p + 1
  · simp [h, hil]
  · simp only [h, if_false]
    rw [List.getElem?_append_left (by simpa using hi)]
    simp [hi]

theorem macd_line_length (pr : List ℚ) (f s g : ℕ) :
    (calculate_macd pr f s g).1.length = pr.length := by
  unfold calculate_macd
  dsimp only
  split
  · simp
  · split <;> simp

theorem macd_signal_length (pr : List ℚ) (f s g : ℕ) (hg : 1 ≤ g)
    (hs : 1 ≤ s) : (calculate_macd pr f s g).2.1.length = pr.length := by
  unfold calculate_macd
  dsimp only
  split
  · simp
  · rename_i h
    split
    · simp
    · simp only
      simp [ema_length _ g hg, List.length_drop]
      omega

theorem macd_histogram_length (pr : List ℚ) (f s g : ℕ) :
    (calculate_macd pr f s g).2.2.length = pr.length := by
  unfold calculate_macd
  dsimp only
  split
  · simp
  · split <;> simp

theorem optSub_none_right (a : PVal) : optSub a PVal.none = PVal.none := by
  unfold optSub
  split <;> simp

theorem optSub_none_left (b : PVal) : optSub PVal.none b = PVal.none := rfl

theorem getD_of_getElem_eq {α : Type} {l : List α} {i : ℕ} {v d : α}
    (h : l[i]? = some v) : l.getD i d = v := by
  simp [List.getD_eq_getElem?_getD, h]

theorem macd_line_prefix_undef (pr : List ℚ) (f s g i : ℕ) (hi : i < s - 1)
    (hil : i < pr.length) :
    (calculate_macd pr f s g).1[i]? = some PVal.none := by
  unfold calculate_macd
  dsimp only
  split
  · simp [hil]
  · have hev : (calculate_ema (pr.map PVal.num) s)[i]? = some PVal.none :=
      ema_prefix_undef _ s i hi (by simpa using hil)
    split
    · simp only
      rw [List.getElem?_map, List.getElem?_range hil]
      simp [List.getD_eq_getElem?_getD, hev, optSub_none_right]
    · simp only
      rw [List.getElem?_map, List.getElem?_range hil]
      simp [List.getD_eq_getElem?_getD, hev, optSub_none_right]

theorem macd_signal_prefix_undef (pr : List ℚ) (f s g i : ℕ) (hs : 1 ≤ s)
    (hi : i < s - 1 + (g - 1)) (hil : i < pr.length) :
    (calculate_macd pr f s g).2.1[i]? = some PVal.none := by
  unfold calculate_macd
  dsimp only
  split
  · simp [hil]
  · rename_i hn
    split
    · simp [hil]
    · simp only
      by_cases hlow : i < s - 1
      · rw [List.getElem?_append_left (by simpa using hlow)]
        simp [hlow]
      · push_neg at hlow
        rw [List.getElem?_append_right (by simpa using hlow)]
        simp only [List.length_replicate]
        exact ema_prefix_undef _ g (i - (s - 1)) (by omega) (by simp; omega)

theorem macd_histogram_prefix_undef (pr : List ℚ) (f s g i : ℕ) (hs : 1 ≤ s)
    (hi : i < s - 1 + (g - 1)) (hil : i < pr.length) :
    (calculate_macd pr f s g).2.2[i]? = some PVal.none := by
  unfold calculate_macd
  dsimp only
  split
  · simp [hil]
  · rename_i hn
    split
    · simp [hil]
    · simp only
      rw [List.getElem?_map, List.getElem?_range hil, Option.map_some']
      by_cases hlow : i < s - 1
      · have hsv : (List.replicate (s - 1) PVal.none ++
            calculate_ema ((((List.range pr.length).map fun i =>
              optSub ((calculate_ema (pr.map PVal.num) f).getD i PVal.none)
                ((calculate_ema (pr.map PVal.num) s).getD i PVal.none))).drop (s - 1)) g).getD
            i PVal.none = PVal.none := by
          refine getD_of_getElem_eq ?_
          rw [List.getElem?_append_left (by simpa using hlow)]
          simp [hlow]
        rw [hsv, optSub_none_right]
      · push_neg at hlow
        have hsv : (List.replicate (s - 1) PVal.none ++
            calculate_ema ((((List.range pr.length).map fun i =>
              optSub ((calculate_ema (pr.map PVal.num) f).getD i PVal.none)
                ((calculate_ema (pr.map PVal.num) s).getD i PVal.none))).drop (s - 1)) g).getD
            i PVal.none = PVal.none := by
          refine getD_of_getElem_eq ?_
          rw [List.getElem?_append_right (by simpa using hlow)]
          simp only [List.length_replicate]
          exact ema_prefix_undef _ g (i - (s - 1)) (by omega) (by simp; omega)
        rw [hsv, optSub_none_right]

theorem bollinger_upper_length (std : List ℚ → ℚ) (pr : List ℚ) (p : ℕ) (k : ℚ) :
    (calculate_bollinger_bands std pr p k).1.length = pr.length := by
  unfold calculate_bollinger_bands
  dsimp only
  split <;> simp

theorem bollinger_middle_length (std : List ℚ → ℚ) (pr : List ℚ) (p : ℕ) (k : ℚ)
    (hp : 1 ≤ p) :
    (calculate_bollinger_bands std pr p k).2.1.length = pr.length := by
  unfold calculate_bollinger_bands
  dsimp only
  split
  · simp
  · simpa using sma_length (pr.map PVal.num) p hp

theorem bollinger_lower_length (std : List ℚ → ℚ) (pr : List ℚ) (p : ℕ) (k : ℚ) :
    (calculate_bollinger_bands std pr p k).2.2.length = pr.length := by
  unfold calculate_bollinger_bands
  dsimp only
  split <;> simp

theorem bollinger_upper_prefix_undef (std : List ℚ → ℚ) (pr : List ℚ) (p : ℕ)
    (k : ℚ) (i : ℕ) (hi : i < p - 1) (hil : i < pr.length) :
    (calculate_bollinger_bands std pr p k).1[i]? = some PVal.none := by
  unfold calculate_bollinger_bands
  dsimp only
  split
  · simp [hil]
  · rw [List.getElem?_map, List.getElem?_range hil, Option.map_some']
    simp [hi]

theorem bollinger_lower_prefix_undef (std : List ℚ → ℚ) (pr : List ℚ) (p : ℕ)
    (k : ℚ) (i : ℕ) (hi : i < p - 1) (hil : i < pr.length) :
    (calculate_bollinger_bands std pr p k).2.2[i]? = some PVal.none := by
  unfold calculate_bollinger_bands
  dsimp only
  split
  · simp [hil]
  · rw [List.getElem?_map, List.getElem?_range hil, Option.map_some']
    simp [hi]

theorem trueRanges_length (h l c : List ℚ) :
    (trueRanges h l c).length = c.length := by
  simp [trueRanges]

theorem atr_length (h l c : List ℚ) (p : ℕ) (hp : 1 ≤ p) :
    (calculate_atr h l c p).length = c.length := by
  unfold calculate_atr
  split
  · simp
  · rename_i hn
    simp [List.length_scanl, trueRanges_length]
    omega

theorem atr_prefix_undef (h l c : List ℚ) (p i : ℕ) (hi : i < p - 1)
    (hil : i < c.length) :
    (calculate_atr h l c p)[i]? = some PVal.none := by
  unfold calculate_atr
  split
  · simp [hil]
  · rw [List.getElem?_append_left (by simpa using hi)]
    simp [hi]

theorem vwap_length (h l c v : List ℚ) :
    (calculate_vwap h l c v).length = c.length := by
  unfold calculate_vwap
  split <;> simp_all

theorem stochK_length (h l c : List ℚ) (k : ℕ) :
    (stochK h l c k).length = c.length := by
  simp [stochK]

theorem stochK_prefix_undef (h l c : List ℚ) (k i : ℕ) (hi : i < k - 1)
    (hil : i < c.length) : (stochK h l c k)[i]? = some PVal.none := by
  unfold stochK
  rw [List.getElem?_map, List.getElem?_range hil, Option.map_some']
  simp [hi]

theorem obv_length (c v : List ℚ) (hv : v.length = c.length) :
    (calculate_obv c v).length = c.length := by
  unfold calculate_obv
  split
  · simp
  · rename_i hn
    simp [List.length_scanl, List.length_zip, hv]
    omega

theorem mfi_length (h l c v : List ℚ) (p : ℕ) :
    (calculate_mfi h l c v p).length = c.length := by
  unfold calculate_mfi
  split <;> simp

theorem mfi_prefix_undef (h l c v : List ℚ) (p i : ℕ) (hi : i < p)
    (hil : i < c.length) : (calculate_mfi h l c v p)[i]? = some PVal.none := by
  unfold calculate_mfi
  split
  · simp [hil]
  · dsimp only
    rw [List.getElem?_map, List.getElem?_range hil, Option.map_some']
    simp [hi]

theorem cci_length (h l c : List ℚ) (p : ℕ) :
    (calculate_cci h l c p).length = c.length := by
  unfold calculate_cci
  split <;> simp

theorem cci_prefix_undef (h l c : List ℚ) (p i : ℕ) (hi : i < p - 1)
    (hil : i < c.length) : (calculate_cci h l c p)[i]? = some PVal.none := by
  unfold calculate_cci
  split
  · simp [hil]
  · dsimp only
    rw [List.getElem?_map, List.getElem?_range hil, Option.map_some']
    simp [hi]

theorem williams_length (h l c : List ℚ) (p : ℕ) :
    (calculate_williams_r h l c p).length = c.length := by
  unfold calculate_williams_r
  split <;> simp

theorem williams_prefix_undef (h l c : List ℚ) (p i : ℕ) (hi : i < p - 1)
    (hil : i < c.length) :
    (calculate_williams_r h l c p)[i]? = some PVal.none := by
  unfold calculate_williams_r
  split
  · simp [hil]
  · rw [List.getElem?_map, List.getElem?_range hil, Option.map_some']
    simp [hi]

theorem adxDm_length (h l : List ℚ) (n : ℕ) :
    (adxPlusDm h l n).length = n ∧ (adxMinusDm h l n).length = n := by
  simp [adxPlusDm, adxMinusDm]

theorem adx_adx_length (h l c : List ℚ) (p : ℕ) (hp : 1 ≤ p) :
    (calculate_adx h l c p).1.length = c.length := by
  unfold calculate_adx
  dsimp only
  split
  · simp
  · rw [ema_length _ p hp]
    simp

theorem adx_plusdi_length (h l c : List ℚ) (p : ℕ) :
    (calculate_adx h l c p).2.1.length = c.length := by
  unfold calculate_adx
  dsimp only
  split <;> simp

theorem adx_minusdi_length (h l c : List ℚ) (p : ℕ) :
    (calculate_adx h l c p).2.2.length = c.length := by
  unfold calculate_adx
  dsimp only
  split <;> simp

theorem adx_adx_prefix_undef (h l c : List ℚ) (p i : ℕ) (hi : i < p - 1)
    (hil : i < c.length) : (calculate_adx h l c p).1[i]? = some PVal.none := by
  unfold calculate_adx
  dsimp only
  split
  · simp [hil]
  · exact ema_prefix_undef _ p i hi (by simpa using hil)

theorem adx_plusdi_prefix_undef (h l c : List ℚ) (p i : ℕ) (hi : i < p - 1)
    (hil : i < c.length) : (calculate_adx h l c p).2.1[i]? = some PVal.none := by
  unfold calculate_adx
  dsimp only
  split
  · simp [hil]
  · have ha : (calculate_ema ((trueRanges h l c).map PVal.num) p)[i]? = some PVal.none :=
      ema_prefix_undef _ p i hi (by simpa [trueRanges_length] using hil)
    rw [List.getElem?_map, List.getElem?_range hil, Option.map_some']
    simp [List.getD_eq_getElem?_getD, ha]

theorem adx_minusdi_prefix_undef (h l c : List ℚ) (p i : ℕ) (hi : i < p - 1)
    (hil : i < c.length) : (calculate_adx h l c p).2.2[i]? = some PVal.none := by
  unfold calculate_adx
  dsimp only
  split
  · simp [hil]
  · have ha : (calculate_ema ((trueRanges h l c).map PVal.num) p)[i]? = some PVal.none :=
      ema_prefix_undef _ p i hi (by simpa [trueRanges_length] using hil)
    rw [List.getElem?_map, List.getElem?_range hil, Option.map_some']
    simp [List.getD_eq_getElem?_getD, ha]

theorem filterMap_length_of_isSome {α β : Type} (l : List α) (f : α → Option β)
    (h : ∀ a ∈ l, (f a).isSome) : (l.filterMap f).length = l.length := by
  induction l with
  | nil => simp
  | cons a t ih =>
    have ha := h a (by simp)
    cases hf : f a with
    | none => rw [hf] at ha; simp at ha
    | some b =>
      rw [List.filterMap_cons, hf]
      simp only [List.length_cons]
      rw [ih (fun x hx => h x (by simp [hx]))]

theorem periodHighLowAvg_isNum (h l : List ℚ) (p i : ℕ) (hi : ¬(i < p - 1)) :
    periodHighLowAvg h l p i =
      PVal.num ((listMax (window h p i) + listMin (window l p i)) / 2) := by
  simp [periodHighLowAvg, hi]

theorem periodHighLowAvg_undef (h l : List ℚ) (p i : ℕ) (hi : i < p - 1) :
    periodHighLowAvg h l p i = PVal.none := by
  simp [periodHighLowAvg, hi]

theorem ichimoku_tenkan_length (h l c : List ℚ) :
    (calculate_ichimoku h l c 9 26 52).tenkan_sen.length = c.length := by
  unfold calculate_ichimoku
  dsimp only
  split <;> simp

theorem ichimoku_kijun_length (h l c : List ℚ) :
    (calculate_ichimoku h l c 9 26 52).kijun_sen.length = c.length := by
  unfold calculate_ichimoku
  dsimp only
  split <;> simp

theorem ichimoku_senkoub_length (h l c : List ℚ) :
    (calculate_ichimoku h l c 9 26 52).senkou_b.length = c.length := by
  unfold calculate_ichimoku
  dsimp only
  split
  · simp
  · rename_i hn
    simp
    omega

theorem ichimoku_chikou_length (h l c : List ℚ) :
    (calculate_ichimoku h l c 9 26 52).chikou_span.length = c.length := by
  unfold calculate_ichimoku
  dsimp only
  split
  · simp
  · rename_i hn
    simp
    omega

theorem filterMap_range_length_lower (F : ℕ → Option PVal) (n k : ℕ)
    (hk : k ≤ n) (h : ∀ a, k ≤ a → a < n → (F a).isSome) :
    n - k ≤ ((List.range n).filterMap F).length := by
  have hsplit : List.range n = List.range' 0 k ++ List.range' k (n - k) := by
    have he := List.range'_append_1 0 k (n - k)
    simp only [Nat.zero_add] at he
    have hn2 : n = n - k + k := by omega
    conv_lhs => rw [List.range_eq_range', hn2]
    exact he.symm
  rw [hsplit, List.filterMap_append, List.length_append]
  have h2 : ((List.range' k (n - k)).filterMap F).length = n - k := by
    rw [filterMap_length_of_isSome]
    · simp
    · intro a ha
      have := List.mem_range'.mp ha
      exact h a (by omega) (by omega)
  omega

theorem ichimoku_senkoua_length (h l c : List ℚ) :
    (calculate_ichimoku h l c 9 26 52).senkou_a.length = c.length := by
  unfold calculate_ichimoku
  dsimp only
  split
  · simp
  · rename_i hn
    push_neg at hn
    simp only [List.length_take, List.length_append, List.length_replicate]
    have hlow := filterMap_range_length_lower
      (ichiSenkouAEntry ((List.range c.length).map (periodHighLowAvg h l 9))
        ((List.range c.length).map (periodHighLowAvg h l 26)))
      c.length 25 (by omega) ?_
    · omega
    · intro a ha han
      unfold ichiSenkouAEntry
      have hts : (((List.range c.length).map (periodHighLowAvg h l 9)).getD a PVal.none) =
          PVal.num ((listMax (window h 9 a) + listMin (window l 9 a)) / 2) := by
        refine getD_of_getElem_eq ?_
        rw [List.getElem?_map, List.getElem?_range han, Option.map_some']
        rw [periodHighLowAvg_isNum h l 9 a (by omega)]
      have hks : (((List.range c.length).map (periodHighLowAvg h l 26)).getD a PVal.none) =
          PVal.num ((listMax (window h 26 a) + listMin (window l 26 a)) / 2) := by
        refine getD_of_getElem_eq ?_
        rw [List.getElem?_map, List.getElem?_range han, Option.map_some']
        rw [periodHighLowAvg_isNum h l 26 a (by omega)]
      simp only [hts, hks]
      simp

theorem ichimoku_tenkan_prefix_undef (h l c : List ℚ) (i : ℕ) (hi : i < 8)
    (hil : i < c.length) :
    (calculate_ichimoku h l c 9 26 52).tenkan_sen[i]? = some PVal.none := by
  unfold calculate_ichimoku
  dsimp only
  split
  · simp [hil]
  · rw [List.getElem?_map, List.getElem?_range hil, Option.map_some']
    rw [periodHighLowAvg_undef h l 9 i (by omega)]

theorem ichimoku_kijun_prefix_undef (h l c : List ℚ) (i : ℕ) (hi : i < 25)
    (hil : i < c.length) :
    (calculate_ichimoku h l c 9 26 52).kijun_sen[i]? = some PVal.none := by
  unfold calculate_ichimoku
  dsimp only
  split
  · simp [hil]
  · rw [List.getElem?_map, List.getElem?_range hil, Option.map_some']
    rw [periodHighLowAvg_undef h l 26 i (by omega)]

theorem ichimoku_senkoua_prefix_undef (h l c : List ℚ) (i : ℕ) (hi : i < 26)
    (hil : i < c.length) :
    (calculate_ichimoku h l c 9 26 52).senkou_a[i]? = some PVal.none := by
  unfold calculate_ichimoku
  dsimp only
  split
  · simp [hil]
  · rw [List.getElem?_take_of_lt hil]
    rw [List.getElem?_append_left (by simpa using hi)]
    rw [List.getElem?_replicate]
    simp [hi]

theorem ichimoku_senkoub_prefix_undef (h l c : List ℚ) (i : ℕ) (hi : i < 26)
    (hil : i < c.length) :
    (calculate_ichimoku h l c 9 26 52).senkou_b[i]? = some PVal.none := by
  unfold calculate_ichimoku
  dsimp only
  split
  · simp [hil]
  · rw [List.getElem?_take_of_lt hil]
    rw [List.getElem?_append_left (by simpa using hi)]
    rw [List.getElem?_replicate]
    simp [hi]

theorem ichimoku_chikou_eq (h l c : List ℚ) (hn : 52 ≤ c.length) :
    (calculate_ichimoku h l c 9 26 52).chikou_span =
      (c.drop 26).map PVal.num ++ List.replicate 26 PVal.none := by
  unfold calculate_ichimoku
  dsimp only
  split
  · omega
  · rfl

/-! ### NaN poisoning of the Stochastic `%D` series -/

theorem scanl_add_nan (l : List PVal) :
    List.scanl PVal.add PVal.nan l = List.replicate (l.length + 1) PVal.nan := by
  induction l with
  | nil => rfl
  | cons a t ih =>
    rw [List.scanl]
    simp only [PVal.nan_add]
    rw [ih]
    simp [List.replicate_succ]

theorem zipWith_nan_left (q : ℚ) (k : ℕ) (l2 : List PVal) :
    List.zipWith (fun a b => (PVal.sub a b).divQ q) (List.replicate k PVal.nan) l2 =
      List.replicate (min k l2.length) PVal.nan := by
  induction k generalizing l2 with
  | zero => simp
  | succ m ih =>
    cases l2 with
    | nil => simp
    | cons b t =>
      rw [List.replicate_succ, List.zipWith_cons_cons, ih]
      simp only [PVal.sub_nan_left, PVal.divQ_nan, List.length_cons]
      rw [← List.replicate_succ]
      congr 1
      omega

theorem sma_of_none_head (rest : List PVal) (d : ℕ) (hd : 1 ≤ d)
    (hlen : d ≤ rest.length + 1) :
    calculate_sma (PVal.none :: rest) d =
      List.replicate (d - 1) PVal.none ++
        List.replicate (rest.length + 2 - d) PVal.nan := by
  unfold calculate_sma
  rw [if_neg (by simp; omega)]
  have hcs : cumsum0 ((PVal.none :: rest).map PVal.toNan) =
      PVal.num 0 :: List.replicate (rest.length + 1) PVal.nan := by
    unfold cumsum0
    rw [List.map_cons, List.scanl]
    simp only [PVal.toNan_none, PVal.add_nan]
    rw [scanl_add_nan]
    simp
  rw [hcs]
  have hdrop : (PVal.num 0 :: List.replicate (rest.length + 1) PVal.nan).drop d =
      List.replicate (rest.length + 2 - d) PVal.nan := by
    cases d with
    | zero => omega
    | succ m =>
      rw [List.drop_succ_cons, List.drop_replicate]
      congr 1
      omega
  dsimp only
  rw [hdrop, zipWith_nan_left]
  congr 2
  simp [List.length_take]

theorem range_map_head_none (g : ℕ → PVal) (n : ℕ) (hn : 1 ≤ n)
    (h0 : g 0 = PVal.none) :
    ∃ rest : List PVal, (List.range n).map g = PVal.none :: rest ∧
      rest.length = n - 1 := by
  obtain ⟨m, rfl⟩ : ∃ m, n = m + 1 := ⟨n - 1, by omega⟩
  refine ⟨(List.range' 1 m).map g, ?_, by simp⟩
  rw [List.range_eq_range', List.range'_succ, List.map_cons, h0]

theorem stoch_k_length (h l c : List ℚ) (k d : ℕ) :
    (calculate_stochastic h l c k d).1.length = c.length := by
  unfold calculate_stochastic
  split
  · simp
  · simp [stochK_length]

theorem stoch_k_prefix_undef (h l c : List ℚ) (k d i : ℕ) (hi : i < k - 1)
    (hil : i < c.length) :
    (calculate_stochastic h l c k d).1[i]? = some PVal.none := by
  unfold calculate_stochastic
  split
  · simp [hil]
  · exact stochK_prefix_undef h l c k i hi hil

theorem stoch_d_eq (h l c : List ℚ) (hn : 14 ≤ c.length) :
    (calculate_stochastic h l c 14 3).2 =
      List.replicate 2 PVal.none ++
        List.replicate (c.length - 2) PVal.nan := by
  have hhead : ∃ rest : List PVal, stochK h l c 14 = PVal.none :: rest ∧
      rest.length = c.length - 1 := by
    unfold stochK
    refine range_map_head_none _ c.length (by omega) ?_
    rw [if_pos (by omega : (0:ℕ) < 14 - 1)]
  obtain ⟨rest, hrest, hrl⟩ := hhead
  unfold calculate_stochastic
  rw [if_neg (by omega)]
  dsimp only
  rw [hrest, sma_of_none_head rest 3 (by omega) (by omega)]
  congr 2
  omega

theorem stoch_d_length (h l c : List ℚ) (k d : ℕ) (hd : 1 ≤ d) :
    (calculate_stochastic h l c k d).2.length = c.length := by
  unfold calculate_stochastic
  split
  · simp
  · have := sma_length (stochK h l c k) d hd
    simpa [stochK_length] using this

/-! ### Claim C1 -/

/-- C1 counterexample: the claim says every indicator maps an input shorter
than its lookback to an all-`None` sequence, and cites `calculate_obv`,
whose lookback is two samples; but on a one-candle input `calculate_obv`
returns `[0]` — a zero, not the `None` marker. -/
theorem C1_counterexample :
    calculate_obv [1] [5] = [PVal.num 0] ∧
      calculate_obv [1] [5] ≠ List.replicate 1 PVal.none := by
  constructor
  · rfl
  · intro hcontra
    rw [show List.replicate 1 PVal.none = [PVal.none] from rfl] at hcontra
    have : calculate_obv [1] [5] = [PVal.num 0] := rfl
    rw [this] at hcontra
    simp at hcontra

/-- C1 amended: for input shorter than the function's own guard threshold
(`period` for SMA/EMA/Bollinger/CCI/Williams %R, `period + 1` for
RSI/ATR/MFI, `slow` for MACD, `k_period` for Stochastic, `2·period` for ADX,
`senkou_b` for Ichimoku), every period-taking indicator returns all-`None`
output(s) of length exactly `n` and (being total functions of the input)
never raises; the period-free `calculate_obv` instead returns an all-zero
sequence of length `n` when the input is shorter than its 2-sample lookback,
and the period-free `calculate_vwap` returns `[]` on empty input. -/
theorem C1_amended :
    (∀ (l : List PVal) (p : ℕ), l.length < p →
      calculate_sma l p = List.replicate l.length PVal.none) ∧
    (∀ (l : List PVal) (p : ℕ), l.length < p →
      calculate_ema l p = List.replicate l.length PVal.none) ∧
    (∀ (pr : List ℚ) (p : ℕ), pr.length < p + 1 →
      calculate_rsi pr p = List.replicate pr.length PVal.none) ∧
    (∀ (pr : List ℚ) (f s g : ℕ), pr.length < s →
      calculate_macd pr f s g = (List.replicate pr.length PVal.none,
        List.replicate pr.length PVal.none, List.replicate pr.length PVal.none)) ∧
    (∀ (std : List ℚ → ℚ) (pr : List ℚ) (p : ℕ) (k : ℚ), pr.length < p →
      calculate_bollinger_bands std pr p k = (List.replicate pr.length PVal.none,
        List.replicate pr.length PVal.none, List.replicate pr.length PVal.none)) ∧
    (∀ (h l c : List ℚ) (p : ℕ), c.length < p + 1 →
      calculate_atr h l c p = List.replicate c.length PVal.none) ∧
    (∀ (h l c : List ℚ) (k d : ℕ), c.length < k →
      calculate_stochastic h l c k d = (List.replicate c.length PVal.none,
        List.replicate c.length PVal.none)) ∧
    (∀ (h l c v : List ℚ) (p : ℕ), c.length < p + 1 →
      calculate_mfi h l c v p = List.replicate c.length PVal.none) ∧
    (∀ (h l c : List ℚ) (p : ℕ), c.length < p →
      calculate_cci h l c p = List.replicate c.length PVal.none) ∧
    (∀ (h l c : List ℚ) (p : ℕ), c.length < p →
      calculate_williams_r h l c p = List.replicate c.length PVal.none) ∧
    (∀ (h l c : List ℚ) (p : ℕ), c.length < p * 2 →
      calculate_adx h l c p = (List.replicate c.length PVal.none,
        List.replicate c.length PVal.none, List.replicate c.length PVal.none)) ∧
    (∀ (h l c : List ℚ) (t k sb : ℕ), c.length < sb →
      calculate_ichimoku h l c t k sb = ⟨List.replicate c.length PVal.none,
        List.replicate c.length PVal.none, List.replicate c.length PVal.none,
        List.replicate c.length PVal.none, List.replicate c.length PVal.none⟩) ∧
    (∀ (c v : List ℚ), c.length < 2 →
      calculate_obv c v = List.replicate c.length (PVal.num 0)) ∧
    (∀ (h l c v : List ℚ), c.length = 0 → calculate_vwap h l c v = []) := by
  refine ⟨?_, ?_, ?_, ?_, ?_, ?_, ?_, ?_, ?_, ?_, ?_, ?_, ?_, ?_⟩
  · intro l p hl
    simp [calculate_sma, hl]
  · intro l p hl
    simp [calculate_ema, hl]
  · intro pr p hl
    simp [calculate_rsi, hl]
  · intro pr f s g hl
    simp [calculate_macd, hl]
  · intro std pr p k hl
    simp [calculate_bollinger_bands, hl]
  · intro h l c p hl
    simp [calculate_atr, hl]
  · intro h l c k d hl
    simp [calculate_stochastic, hl]
  · intro h l c v p hl
    simp [calculate_mfi, hl]
  · intro h l c p hl
    simp [calculate_cci, hl]
  · intro h l c p hl
    simp [calculate_williams_r, hl]
  · intro h l c p hl
    simp [calculate_adx, hl]
  · intro h l c t k sb hl
    simp [calculate_ichimoku, hl]
  · intro c v hl
    simp [calculate_obv, hl]
  · intro h l c v hl
    simp [calculate_vwap, hl]

/-- C1 witness: the amended theorem applied at concrete short inputs,
one per indicator. -/
theorem C1_amended_witness :
    calculate_sma [PVal.num 3] 2 = [PVal.none] ∧
    calculate_ema [PVal.num 3] 2 = [PVal.none] ∧
    calculate_rsi [3] 1 = [PVal.none] ∧
    calculate_macd [3] 1 2 1 = ([PVal.none], [PVal.none], [PVal.none]) ∧
    calculate_bollinger_bands (fun _ => 0) [3] 2 2 =
      ([PVal.none], [PVal.none], [PVal.none]) ∧
    calculate_atr [3] [1] [2] 1 = [PVal.none] ∧
    calculate_stochastic [3] [1] [2] 2 1 = ([PVal.none], [PVal.none]) ∧
    calculate_mfi [3] [1] [2] [1] 1 = [PVal.none] ∧
    calculate_cci [3] [1] [2] 2 = [PVal.none] ∧
    calculate_williams_r [3] [1] [2] 2 = [PVal.none] ∧
    calculate_adx [3] [1] [2] 1 = ([PVal.none], [PVal.none], [PVal.none]) ∧
    calculate_ichimoku [3] [1] [2] 1 1 2 =
      ⟨[PVal.none], [PVal.none], [PVal.none], [PVal.none], [PVal.none]⟩ ∧
    calculate_obv [2] [1] = [PVal.num 0] ∧
    calculate_vwap [] [] [] [] = [] := by
  refine ⟨?_, ?_, ?_, ?_, ?_, ?_, ?_, ?_, ?_, ?_, ?_, ?_, ?_, ?_⟩
  · simpa using C1_amended.1 [PVal.num 3] 2 (by norm_num)
  · simpa using C1_amended.2.1 [PVal.num 3] 2 (by norm_num)
  · simpa using C1_amended.2.2.1 [3] 1 (by norm_num)
  · simpa using C1_amended.2.2.2.1 [3] 1 2 1 (by norm_num)
  · simpa using C1_amended.2.2.2.2.1 (fun _ => 0) [3] 2 2 (by norm_num)
  · simpa using C1_amended.2.2.2.2.2.1 [3] [1] [2] 1 (by norm_num)
  · simpa using C1_amended.2.2.2.2.2.2.1 [3] [1] [2] 2 1 (by norm_num)
  · simpa using C1_amended.2.2.2.2.2.2.2.1 [3] [1] [2] [1] 1 (by norm_num)
  · simpa using C1_amended.2.2.2.2.2.2.2.2.1 [3] [1] [2] 2 (by norm_num)
  · simpa using C1_amended.2.2.2.2.2.2.2.2.2.1 [3] [1] [2] 2 (by norm_num)
  · simpa using C1_amended.2.2.2.2.2.2.2.2.2.2.1 [3] [1] [2] 1 (by norm_num)
  · simpa using C1_amended.2.2.2.2.2.2.2.2.2.2.2.1 [3] [1] [2] 1 1 2 (by norm_num)
  · simpa using C1_amended.2.2.2.2.2.2.2.2.2.2.2.2.1 [2] [1] (by norm_num)
  · simpa using C1_amended.2.2.2.2.2.2.2.2.2.2.2.2.2 [] [] [] [] (by norm_num)

/-! ### Claim C2 -/

/-- C2 counterexample: the Stochastic `%D` series is `calculate_sma` applied
to the `None`-containing `%K` list; numpy turns those `None`s into NaN and
`np.cumsum` propagates the NaN of `%K[0]` into every window sum, so on a
14-candle input the `%D` entry at position 2 — a position preceding the
`%D` lookback `k + d - 2 = 15` — is the float NaN, not the `None` marker
the claim requires (and no `%D` position ever becomes a number). -/
theorem C2_counterexample :
    (calculate_stochastic [1, 1, 1, 1, 1, 1, 1, 1, 1, 1, 1, 1, 1, 1]
      [1, 1, 1, 1, 1, 1, 1, 1, 1, 1, 1, 1, 1, 1]
      [1, 1, 1, 1, 1, 1, 1, 1, 1, 1, 1, 1, 1, 1] 14 3).2[2]? =
      some PVal.nan ∧ PVal.nan ≠ PVal.none := by
  constructor
  · rw [stoch_d_eq _ _ _ (by norm_num)]
    rw [List.getElem?_append_right (by simp)]
    simp
  · simp

/-- C2 amended: for every input (of any length `n`), every indicator returns
output sequence(s) of length exactly `n`, index-aligned, with `None` at every
position preceding the code's lookback for that output — except the
Stochastic `%D` series, whose positions from `d_period - 1` on hold the
float NaN produced by running `calculate_sma` over the `None`-padded `%K`
list (at the program's parameters `k = 14, d = 3`, `%D` is `None, None`
followed by all-NaN whenever `n ≥ 14`).  Multi-parameter indicators are
stated at the program's parameters where their seams interact
(MACD 12/26/9 is stated for general `fast/slow/signal`; Stochastic `%D`
and Ichimoku at their defaults). -/
theorem C2_amended :
    (∀ (l : List PVal) (p : ℕ), 1 ≤ p → (calculate_sma l p).length = l.length ∧
      ∀ i, i < p - 1 → i < l.length → (calculate_sma l p)[i]? = some PVal.none) ∧
    (∀ (l : List PVal) (p : ℕ), 1 ≤ p → (calculate_ema l p).length = l.length ∧
      ∀ i, i < p - 1 → i < l.length → (calculate_ema l p)[i]? = some PVal.none) ∧
    (∀ (pr : List ℚ) (p : ℕ), 1 ≤ p → (calculate_rsi pr p).length = pr.length ∧
      ∀ i, i < p → i < pr.length → (calculate_rsi pr p)[i]? = some PVal.none) ∧
    (∀ (pr : List ℚ) (f s g : ℕ), 1 ≤ s → 1 ≤ g →
      (calculate_macd pr f s g).1.length = pr.length ∧
      (calculate_macd pr f s g).2.1.length = pr.length ∧
      (calculate_macd pr f s g).2.2.length = pr.length ∧
      (∀ i, i < s - 1 → i < pr.length →
        (calculate_macd pr f s g).1[i]? = some PVal.none) ∧
      (∀ i, i < s - 1 + (g - 1) → i < pr.length →
        (calculate_macd pr f s g).2.1[i]? = some PVal.none) ∧
      (∀ i, i < s - 1 + (g - 1) → i < pr.length →
        (calculate_macd pr f s g).2.2[i]? = some PVal.none)) ∧
    (∀ (std : List ℚ → ℚ) (pr : List ℚ) (p : ℕ) (k : ℚ), 1 ≤ p →
      (calculate_bollinger_bands std pr p k).1.length = pr.length ∧
      (calculate_bollinger_bands std pr p k).2.1.length = pr.length ∧
      (calculate_bollinger_bands std pr p k).2.2.length = pr.length ∧
      (∀ i, i < p - 1 → i < pr.length →
        (calculate_bollinger_bands std pr p k).1[i]? = some PVal.none ∧
        (calculate_bollinger_bands std pr p k).2.2[i]? = some PVal.none)) ∧
    (∀ (h l c : List ℚ) (p : ℕ), 1 ≤ p →
      (calculate_atr h l c p).length = c.length ∧
      ∀ i, i < p - 1 → i < c.length →
        (calculate_atr h l c p)[i]? = some PVal.none) ∧
    (∀ (h l c : List ℚ) (k d : ℕ), 1 ≤ d →
      (calculate_stochastic h l c k d).1.length = c.length ∧
      (calculate_stochastic h l c k d).2.length = c.length ∧
      ∀ i, i < k - 1 → i < c.length →
        (calculate_stochastic h l c k d).1[i]? = some PVal.none) ∧
    (∀ (h l c : List ℚ), 14 ≤ c.length →
      (calculate_stochastic h l c 14 3).2 =
        List.replicate 2 PVal.none ++ List.replicate (c.length - 2) PVal.nan) ∧
    (∀ (c v : List ℚ), v.length = c.length →
      (calculate_obv c v).length = c.length) ∧
    (∀ (h l c v : List ℚ) (p : ℕ),
      (calculate_mfi h l c v p).length = c.length ∧
      ∀ i, i < p → i < c.length →
        (calculate_mfi h l c v p)[i]? = some PVal.none) ∧
    (∀ (h l c : List ℚ) (p : ℕ), (calculate_cci h l c p).length = c.length ∧
      ∀ i, i < p - 1 → i < c.length →
        (calculate_cci h l c p)[i]? = some PVal.none) ∧
    (∀ (h l c : List ℚ) (p : ℕ),
      (calculate_williams_r h l c p).length = c.length ∧
      ∀ i, i < p - 1 → i < c.length →
        (calculate_williams_r h l c p)[i]? = some PVal.none) ∧
    (∀ (h l c : List ℚ) (p : ℕ), 1 ≤ p →
      (calculate_adx h l c p).1.length = c.length ∧
      (calculate_adx h l c p).2.1.length = c.length ∧
      (calculate_adx h l c p).2.2.length = c.length ∧
      ∀ i, i < p - 1 → i < c.length →
        (calculate_adx h l c p).1[i]? = some PVal.none ∧
        (calculate_adx h l c p).2.1[i]? = some PVal.none ∧
        (calculate_adx h l c p).2.2[i]? = some PVal.none) ∧
    (∀ (h l c : List ℚ),
      (calculate_ichimoku h l c 9 26 52).tenkan_sen.length = c.length ∧
      (calculate_ichimoku h l c 9 26 52).kijun_sen.length = c.length ∧
      (calculate_ichimoku h l c 9 26 52).senkou_a.length = c.length ∧
      (calculate_ichimoku h l c 9 26 52).senkou_b.length = c.length ∧
      (calculate_ichimoku h l c 9 26 52).chikou_span.length = c.length ∧
      (∀ i, i < 8 → i < c.length →
        (calculate_ichimoku h l c 9 26 52).tenkan_sen[i]? = some PVal.none) ∧
      (∀ i, i < 25 → i < c.length →
        (calculate_ichimoku h l c 9 26 52).kijun_sen[i]? = some PVal.none) ∧
      (∀ i, i < 26 → i < c.length →
        (calculate_ichimoku h l c 9 26 52).senkou_a[i]? = some PVal.none ∧
        (calculate_ichimoku h l c 9 26 52).senkou_b[i]? = some PVal.none) ∧
      (52 ≤ c.length → (calculate_ichimoku h l c 9 26 52).chikou_span =
        (c.drop 26).map PVal.num ++ List.replicate 26 PVal.none)) ∧
    (∀ (h l c v : List ℚ), (calculate_vwap h l c v).length = c.length) := by
  refine ⟨?_, ?_, ?_, ?_, ?_, ?_, ?_, ?_, ?_, ?_, ?_, ?_, ?_, ?_, ?_⟩
  · intro l p hp
    exact ⟨sma_length l p hp, fun i hi hil => sma_prefix_undef l p i hi hil⟩
  · intro l p hp
    exact ⟨ema_length l p hp, fun i hi hil => ema_prefix_undef l p i hi hil⟩
  · intro pr p hp
    exact ⟨rsi_length pr p hp, fun i hi hil => rsi_prefix_undef pr p i hi hil⟩
  · intro pr f s g hs hg
    exact ⟨macd_line_length pr f s g, macd_signal_length pr f s g hg hs,
      macd_histogram_length pr f s g,
      fun i hi hil => macd_line_prefix_undef pr f s g i hi hil,
      fun i hi hil => macd_signal_prefix_undef pr f s g i hs hi hil,
      fun i hi hil => macd_histogram_prefix_undef pr f s g i hs hi hil⟩
  · intro std pr p k hp
    exact ⟨bollinger_upper_length std pr p k,
      bollinger_middle_length std pr p k hp,
      bollinger_lower_length std pr p k,
      fun i hi hil => ⟨bollinger_upper_prefix_undef std pr p k i hi hil,
        bollinger_lower_prefix_undef std pr p k i hi hil⟩⟩
  · intro h l c p hp
    exact ⟨atr_length h l c p hp, fun i hi hil => atr_prefix_undef h l c p i hi hil⟩
  · intro h l c k d hd
    exact ⟨stoch_k_length h l c k d, stoch_d_length h l c k d hd,
      fun i hi hil => stoch_k_prefix_undef h l c k d i hi hil⟩
  · intro h l c hn
    exact stoch_d_eq h l c hn
  · intro c v hv
    exact obv_length c v hv
  · intro h l c v p
    exact ⟨mfi_length h l c v p, fun i hi hil => mfi_prefix_undef h l c v p i hi hil⟩
  · intro h l c p
    exact ⟨cci_length h l c p, fun i hi hil => cci_prefix_undef h l c p i hi hil⟩
  · intro h l c p
    exact ⟨williams_length h l c p,
      fun i hi hil => williams_prefix_undef h l c p i hi hil⟩
  · intro h l c p hp
    exact ⟨adx_adx_length h l c p hp, adx_plusdi_length h l c p,
      adx_minusdi_length h l c p,
      fun i hi hil => ⟨adx_adx_prefix_undef h l c p i hi hil,
        adx_plusdi_prefix_undef h l c p i hi hil,
        adx_minusdi_prefix_undef h l c p i hi hil⟩⟩
  · intro h l c
    exact ⟨ichimoku_tenkan_length h l c, ichimoku_kijun_length h l c,
      ichimoku_senkoua_length h l c, ichimoku_senkoub_length h l c,
      ichimoku_chikou_length h l c,
      fun i hi hil => ichimoku_tenkan_prefix_undef h l c i hi hil,
      fun i hi hil => ichimoku_kijun_prefix_undef h l c i hi hil,
      fun i hi hil => ⟨ichimoku_senkoua_prefix_undef h l c i hi hil,
        ichimoku_senkoub_prefix_undef h l c i hi hil⟩,
      fun hn => ichimoku_chikou_eq h l c hn⟩
  · intro h l c v
    exact vwap_length h l c v

/-- C2 witness: the amended theorem applied at concrete inputs, discharging
every hypothesis. -/
theorem C2_amended_witness :
    ((calculate_sma [PVal.num 1, PVal.num 2] 2).length = 2 ∧
      (calculate_sma [PVal.num 1, PVal.num 2] 2)[0]? = some PVal.none) ∧
    ((calculate_ema [PVal.num 1, PVal.num 2] 2).length = 2 ∧
      (calculate_ema [PVal.num 1, PVal.num 2] 2)[0]? = some PVal.none) ∧
    ((calculate_rsi [1, 2] 1).length = 2 ∧
      (calculate_rsi [1, 2] 1)[0]? = some PVal.none) ∧
    ((calculate_macd [1, 2] 1 2 1).1.length = 2 ∧
      (calculate_macd [1, 2] 1 2 1).2.1.length = 2 ∧
      (calculate_macd [1, 2] 1 2 1).2.2.length = 2 ∧
      (calculate_macd [1, 2] 1 2 1).1[0]? = some PVal.none ∧
      (calculate_macd [1, 2] 1 2 1).2.1[0]? = some PVal.none ∧
      (calculate_macd [1, 2] 1 2 1).2.2[0]? = some PVal.none) ∧
    ((calculate_bollinger_bands (fun _ => 0) [1, 2] 2 2).1.length = 2 ∧
      (calculate_bollinger_bands (fun _ => 0) [1, 2] 2 2).1[0]? = some PVal.none ∧
      (calculate_bollinger_bands (fun _ => 0) [1, 2] 2 2).2.2[0]? = some PVal.none) ∧
    ((calculate_atr [2, 2] [1, 1] [1, 1] 2).length = 2 ∧
      (calculate_atr [2, 2] [1, 1] [1, 1] 2)[0]? = some PVal.none) ∧
    ((calculate_stochastic [2, 3] [0, 1] [1, 2] 2 1).1.length = 2 ∧
      (calculate_stochastic [2, 3] [0, 1] [1, 2] 2 1).2.length = 2 ∧
      (calculate_stochastic [2, 3] [0, 1] [1, 2] 2 1).1[0]? = some PVal.none) ∧
    ((calculate_stochastic (List.replicate 14 1) (List.replicate 14 1)
        (List.replicate 14 1) 14 3).2 =
      List.replicate 2 PVal.none ++ List.replicate 12 PVal.nan) ∧
    ((calculate_obv [1, 2] [3, 4]).length = 2) ∧
    ((calculate_mfi [2, 3] [0, 1] [1, 2] [1, 1] 1).length = 2 ∧
      (calculate_mfi [2, 3] [0, 1] [1, 2] [1, 1] 1)[0]? = some PVal.none) ∧
    ((calculate_cci [2, 3] [0, 1] [1, 2] 2).length = 2 ∧
      (calculate_cci [2, 3] [0, 1] [1, 2] 2)[0]? = some PVal.none) ∧
    ((calculate_williams_r [2, 3] [0, 1] [1, 2] 2).length = 2 ∧
      (calculate_williams_r [2, 3] [0, 1] [1, 2] 2)[0]? = some PVal.none) ∧
    ((calculate_adx [2, 3] [0, 1] [1, 2] 2).1.length = 2 ∧
      (calculate_adx [2, 3] [0, 1] [1, 2] 2).1[0]? = some PVal.none ∧
      (calculate_adx [2, 3] [0, 1] [1, 2] 2).2.1[0]? = some PVal.none ∧
      (calculate_adx [2, 3] [0, 1] [1, 2] 2).2.2[0]? = some PVal.none) ∧
    ((calculate_ichimoku (List.replicate 52 1) (List.replicate 52 1)
        (List.replicate 52 1) 9 26 52).tenkan_sen.length = 52 ∧
      (calculate_ichimoku (List.replicate 52 1) (List.replicate 52 1)
        (List.replicate 52 1) 9 26 52).senkou_a.length = 52 ∧
      (calculate_ichimoku (List.replicate 52 1) (List.replicate 52 1)
        (List.replicate 52 1) 9 26 52).tenkan_sen[0]? = some PVal.none ∧
      (calculate_ichimoku (List.replicate 52 1) (List.replicate 52 1)
        (List.replicate 52 1) 9 26 52).senkou_a[0]? = some PVal.none ∧
      (calculate_ichimoku (List.replicate 52 1) (List.replicate 52 1)
        (List.replicate 52 1) 9 26 52).chikou_span =
        ((List.replicate 52 (1:ℚ)).drop 26).map PVal.num ++
          List.replicate 26 PVal.none) ∧
    ((calculate_vwap [2, 3] [0, 1] [1, 2] [1, 1]).length = 2) := by
  refine ⟨?_, ?_, ?_, ?_, ?_, ?_, ?_, ?_, ?_, ?_, ?_, ?_, ?_, ?_, ?_⟩
  · have h := C2_amended.1 [PVal.num 1, PVal.num 2] 2 (by norm_num)
    exact ⟨by simpa using h.1, h.2 0 (by norm_num) (by norm_num)⟩
  · have h := C2_amended.2.1 [PVal.num 1, PVal.num 2] 2 (by norm_num)
    exact ⟨by simpa using h.1, h.2 0 (by norm_num) (by norm_num)⟩
  · have h := C2_amended.2.2.1 [1, 2] 1 (by norm_num)
    exact ⟨by simpa using h.1, h.2 0 (by norm_num) (by norm_num)⟩
  · have h := C2_amended.2.2.2.1 [1, 2] 1 2 1 (by norm_num) (by norm_num)
    exact ⟨by simpa using h.1, by simpa using h.2.1, by simpa using h.2.2.1,
      h.2.2.2.1 0 (by norm_num) (by norm_num),
      h.2.2.2.2.1 0 (by norm_num) (by norm_num),
      h.2.2.2.2.2 0 (by norm_num) (by norm_num)⟩
  · have h := C2_amended.2.2.2.2.1 (fun _ => 0) [1, 2] 2 2 (by norm_num)
    exact ⟨by simpa using h.1, (h.2.2.2 0 (by norm_num) (by norm_num)).1,
      (h.2.2.2 0 (by norm_num) (by norm_num)).2⟩
  · have h := C2_amended.2.2.2.2.2.1 [2, 2] [1, 1] [1, 1] 2 (by norm_num)
    exact ⟨by simpa using h.1, h.2 0 (by norm_num) (by norm_num)⟩
  · have h := C2_amended.2.2.2.2.2.2.1 [2, 3] [0, 1] [1, 2] 2 1 (by norm_num)
    exact ⟨by simpa using h.1, by simpa using h.2.1,
      h.2.2 0 (by norm_num) (by norm_num)⟩
  · have h := C2_amended.2.2.2.2.2.2.2.1 (List.replicate 14 1)
      (List.replicate 14 1) (List.replicate 14 1) (by simp)
    simpa using h
  · have h := C2_amended.2.2.2.2.2.2.2.2.1 [1, 2] [3, 4] (by simp)
    simpa using h
  · have h := C2_amended.2.2.2.2.2.2.2.2.2.1 [2, 3] [0, 1] [1, 2] [1, 1] 1
    exact ⟨by simpa using h.1, h.2 0 (by norm_num) (by norm_num)⟩
  · have h := C2_amended.2.2.2.2.2.2.2.2.2.2.1 [2, 3] [0, 1] [1, 2] 2
    exact ⟨by simpa using h.1, h.2 0 (by norm_num) (by norm_num)⟩
  · have h := C2_amended.2.2.2.2.2.2.2.2.2.2.2.1 [2, 3] [0, 1] [1, 2] 2
    exact ⟨by simpa using h.1, h.2 0 (by norm_num) (by norm_num)⟩
  · have h := C2_amended.2.2.2.2.2.2.2.2.2.2.2.2.1 [2, 3] [0, 1] [1, 2] 2
      (by norm_num)
    exact ⟨by simpa using h.1, (h.2.2.2 0 (by norm_num) (by norm_num)).1,
      (h.2.2.2 0 (by norm_num) (by norm_num)).2.1,
      (h.2.2.2 0 (by norm_num) (by norm_num)).2.2⟩
  · have h := C2_amended.2.2.2.2.2.2.2.2.2.2.2.2.2.1 (List.replicate 52 1)
      (List.replicate 52 1) (List.replicate 52 1)
    refine ⟨by simpa using h.1, by simpa using h.2.2.1, ?_, ?_, ?_⟩
    · exact h.2.2.2.2.2.1 0 (by norm_num) (by simp)
    · exact (h.2.2.2.2.2.2.2.1 0 (by norm_num) (by simp)).1
    · simpa using h.2.2.2.2.2.2.2.2 (by simp)
  · have h := C2_amended.2.2.2.2.2.2.2.2.2.2.2.2.2.2 [2, 3] [0, 1] [1, 2] [1, 1]
    simpa using h

/-! ### Claim C5: ATR -/

theorem scanl_head {α β : Type} (f : β → α → β) (l : List α) (b : β) :
    (List.scanl f b l)[0]? = some b := by
  cases l <;> simp [List.scanl]

theorem scanl_step {α β : Type} (f : β → α → β) :
    ∀ (l : List α) (b : β) (j : ℕ) (x : β) (a : α),
      (List.scanl f b l)[j]? = some x → l[j]? = some a →
      (List.scanl f b l)[j + 1]? = some (f x a) := by
  intro l
  induction l with
  | nil => intro b j x a _ ha; simp at ha
  | cons hd tl ih =>
    intro b j x a hx ha
    cases j with
    | zero =>
      simp only [List.scanl] at hx ⊢
      simp at hx ha
      subst hx
      subst ha
      rw [List.getElem?_cons_succ]
      exact scanl_head f tl (f b hd)
    | succ m =>
      simp only [List.scanl] at hx ⊢
      rw [List.getElem?_cons_succ] at hx ⊢
      simp only [List.getElem?_cons_succ] at ha
      exact ih (f b hd) m x a hx ha

/-- C5: `calculate_atr` computes the true ranges as claimed (first value
`high[0] - low[0]`, later values `max(high-low, |high-prevClose|,
|low-prevClose|)`), seeds the ATR at index `period - 1` with the simple mean
of the first `period` true ranges, applies Wilder smoothing
`(prevATR·(period-1) + tr)/period` afterwards, and on the two-candle input
`{h=110,l=90,c=100}, {h=120,l=95,c=115}` with `period = 1` returns exactly
the true-range series `[20, 25]`. -/
theorem C5_atr :
    (calculate_atr [110, 120] [90, 95] [100, 115] 1 =
      [PVal.num 20, PVal.num 25]) ∧
    (∀ (h l c : List ℚ), 1 ≤ c.length →
      (trueRanges h l c).getD 0 0 = h.getD 0 0 - l.getD 0 0) ∧
    (∀ (h l c : List ℚ) (i : ℕ), 1 ≤ i → i < c.length →
      (trueRanges h l c).getD i 0 =
        max (h.getD i 0 - l.getD i 0)
          (max |h.getD i 0 - c.getD (i - 1) 0| |l.getD i 0 - c.getD (i - 1) 0|)) ∧
    (∀ (h l c : List ℚ) (p : ℕ), 1 ≤ p → p + 1 ≤ c.length →
      (calculate_atr h l c p)[p - 1]? =
        some (PVal.num (((trueRanges h l c).take p).sum / p))) ∧
    (∀ (h l c : List ℚ) (p i : ℕ) (prev : ℚ), 1 ≤ p → p ≤ i → i < c.length →
      (calculate_atr h l c p)[i - 1]? = some (PVal.num prev) →
      (calculate_atr h l c p)[i]? =
        some (PVal.num ((prev * ((p : ℚ) - 1) + (trueRanges h l c).getD i 0) / p))) := by
  refine ⟨?_, ?_, ?_, ?_, ?_⟩
  · norm_num [calculate_atr, trueRanges, window, List.scanl, List.range_succ]
  · intro h l c hc
    refine getD_of_getElem_eq ?_
    unfold trueRanges
    rw [List.getElem?_map, List.getElem?_range (by omega), Option.map_some']
    simp
  · intro h l c i hi hic
    refine getD_of_getElem_eq ?_
    unfold trueRanges
    rw [List.getElem?_map, List.getElem?_range hic, Option.map_some']
    rw [if_neg (by omega)]
  · intro h l c p hp hcl
    unfold calculate_atr
    rw [if_neg (by omega)]
    rw [List.getElem?_append_right (by simp)]
    simp only [List.length_replicate, Nat.sub_self]
    rw [List.getElem?_map, scanl_head, Option.map_some']
  · intro h l c p i prev hp hpi hic hprev
    unfold calculate_atr at hprev ⊢
    rw [if_neg (by omega)] at hprev ⊢
    rw [List.getElem?_append_right (by simp; omega)] at hprev
    rw [List.getElem?_map] at hprev
    simp only [List.length_replicate] at hprev
    have hS : (List.scanl
        (fun prev t => (prev * ((p : ℚ) - 1) + t) / p)
        (((trueRanges h l c).take p).sum / p)
        ((trueRanges h l c).drop p))[i - 1 - (p - 1)]? = some prev := by
      cases hv : (List.scanl (fun prev t => (prev * ((p : ℚ) - 1) + t) / p)
          (((trueRanges h l c).take p).sum / p)
          ((trueRanges h l c).drop p))[i - 1 - (p - 1)]? with
      | none => rw [hv] at hprev; simp at hprev
      | some x =>
        rw [hv] at hprev
        simp only [Option.map_some'] at hprev
        have hx : x = prev := by
          have := Option.some.inj hprev
          exact PVal.num.inj this
        rw [hx]
    have hlt : i - p < ((trueRanges h l c).drop p).length := by
      simp [trueRanges_length]
      omega
    have htr : ((trueRanges h l c).drop p)[i - p]? =
        some ((trueRanges h l c).getD i 0) := by
      rw [List.getElem?_drop]
      have hi2 : i < (trueRanges h l c).length := by
        rw [trueRanges_length]; omega
      rw [show p + (i - p) = i by omega]
      rw [List.getElem?_eq_getElem hi2]
      congr 1
      exact (getD_of_getElem_eq (List.getElem?_eq_getElem hi2)).symm
    have hidx : i - 1 - (p - 1) = i - p := by omega
    rw [hidx] at hS
    have hstep := scanl_step _ _ _ _ _ _ hS htr
    rw [List.getElem?_append_right (by simp; omega)]
    rw [List.getElem?_map]
    simp only [List.length_replicate]
    rw [show i - (p - 1) = (i - p) + 1 by omega]
    rw [hstep]
    rfl

/-- C5 witness: every conjunct of `C5_atr` applied at the two-candle input
of the claim. -/
theorem C5_atr_witness :
    (trueRanges [110, 120] [90, 95] [100, 115]).getD 0 0 = 20 ∧
    (trueRanges [110, 120] [90, 95] [100, 115]).getD 1 0 = 25 ∧
    (calculate_atr [110, 120] [90, 95] [100, 115] 1)[0]? = some (PVal.num 20) ∧
    (calculate_atr [110, 120] [90, 95] [100, 115] 1)[1]? = some (PVal.num 25) := by
  have h1 := C5_atr.2.1 [110, 120] [90, 95] [100, 115] (by norm_num)
  have h2 := C5_atr.2.2.1 [110, 120] [90, 95] [100, 115] 1 (by norm_num) (by norm_num)
  have h3 := C5_atr.2.2.2.1 [110, 120] [90, 95] [100, 115] 1 (by norm_num) (by norm_num)
  refine ⟨by rw [h1]; norm_num, by rw [h2]; norm_num, ?_, ?_⟩
  · rw [show (1 : ℕ) - 1 = 0 from rfl] at h3
    rw [h3]
    norm_num [trueRanges, List.range_succ]
  · have h4 := C5_atr.2.2.2.2 [110, 120] [90, 95] [100, 115] 1 1 20
      (by norm_num) (by norm_num) (by norm_num) ?_
    · rw [h4]
      rw [show (trueRanges [110, 120] [90, 95] [100, 115]).getD 1 0 = 25 from
        by rw [h2]; norm_num]
      norm_num
    · rw [show (1 : ℕ) - 1 = 0 from rfl]
      rw [show (1 : ℕ) - 1 = 0 from rfl] at h3
      rw [h3]
      norm_num [trueRanges, List.range_succ]

/-! ### Claim C4: RSI -/

theorem scanl_all {α β : Type} (P : β → Prop) (f : β → α → β) :
    ∀ (l : List α) (b : β), P b → (∀ y a, P y → a ∈ l → P (f y a)) →
      ∀ x ∈ List.scanl f b l, P x := by
  intro l
  induction l with
  | nil =>
    intro b hb _ x hx
    simp [List.scanl] at hx
    subst hx
    exact hb
  | cons hd tl ih =>
    intro b hb hstep x hx
    simp only [List.scanl, List.mem_cons] at hx
    rcases hx with rfl | hx
    · exact hb
    · exact ih (f b hd) (hstep b hd hb (by simp)) 
        (fun y a hy ha => hstep y a hy (by simp [ha])) x hx

theorem sum_nonneg_of_mem (l : List ℚ) (h : ∀ x ∈ l, 0 ≤ x) : 0 ≤ l.sum := by
  induction l with
  | nil => simp
  | cons hd tl ih =>
    rw [List.sum_cons]
    have := h hd (by simp)
    have := ih (fun x hx => h x (by simp [hx]))
    linarith

theorem wilderAvg_nonneg (xs : List ℚ) (p : ℕ) (hp : 1 ≤ p)
    (hxs : ∀ x ∈ xs, 0 ≤ x) : ∀ y ∈ wilderAvg xs p, 0 ≤ y := by
  intro y hy
  unfold wilderAvg at hy
  rw [List.mem_append] at hy
  rcases hy with hy | hy
  · rw [List.eq_of_mem_replicate hy]
  · have hp' : (0:ℚ) < p := by
      have : (1:ℚ) ≤ (p:ℚ) := by exact_mod_cast hp
      linarith
    refine scanl_all (fun z => 0 ≤ z) _ (xs.drop p) _ ?_ ?_ y hy
    · have hs : 0 ≤ (xs.take p).sum :=
        sum_nonneg_of_mem _ (fun x hx => hxs x (List.mem_of_mem_take hx))
      positivity
    · intro z a hz ha
      have haz : 0 ≤ a := hxs a (List.mem_of_mem_drop ha)
      have hpm : (0:ℚ) ≤ (p:ℚ) - 1 := by
        have : (1:ℚ) ≤ (p:ℚ) := by exact_mod_cast hp
        linarith
      have hnum : 0 ≤ z * ((p:ℚ) - 1) + a := by positivity
      positivity

theorem getD_nonneg_of_all (l : List ℚ) (j : ℕ) (h : ∀ x ∈ l, 0 ≤ x) :
    0 ≤ l.getD j 0 := by
  rw [List.getD_eq_getElem?_getD]
  cases hv : l[j]? with
  | none => simp
  | some x =>
    have := h x (List.getElem?_mem hv)
    simpa [hv]

theorem rsiGains_nonneg (pr : List ℚ) : ∀ x ∈ rsiGains pr, 0 ≤ x := by
  intro x hx
  unfold rsiGains at hx
  rw [List.mem_map] at hx
  obtain ⟨d, _, rfl⟩ := hx
  split <;> simp_all
  linarith

theorem rsiLosses_nonneg (pr : List ℚ) : ∀ x ∈ rsiLosses pr, 0 ≤ x := by
  intro x hx
  unfold rsiLosses at hx
  rw [List.mem_map] at hx
  obtain ⟨d, _, rfl⟩ := hx
  split <;> simp_all
  linarith

/-- C4: on an input of length at least `period + 1`, every defined (numeric)
value of `calculate_rsi` lies in `[0, 100]`, and the value is exactly `100`
at every output position `i` whose Wilder-smoothed trailing-period average
loss (`avg_loss[i-1]` in the source, `rsiAvgLoss` here) is zero. -/
theorem C4_rsi (pr : List ℚ) (p i : ℕ) (v : ℚ) (hp : 1 ≤ p)
    (hn : p + 1 ≤ pr.length)
    (hv : (calculate_rsi pr p)[i]? = some (PVal.num v)) :
    (0 ≤ v ∧ v ≤ 100) ∧
      ((rsiAvgLoss pr p).getD (i - 1) 0 = 0 → v = 100) := by
  unfold calculate_rsi at hv
  rw [if_neg (by omega)] at hv
  have hip : p ≤ i := by
    by_contra hlt
    push_neg at hlt
    rw [List.getElem?_append_left (by simpa using hlt)] at hv
    rw [List.getElem?_replicate] at hv
    simp [hlt] at hv
  rw [List.getElem?_append_right (by simpa using hip)] at hv
  simp only [List.length_replicate] at hv
  rw [List.getElem?_map] at hv
  cases hr : (List.drop (p - 1) (rsiValues pr p))[i - p]? with
  | none => rw [hr] at hv; simp at hv
  | some w =>
    rw [hr] at hv
    simp only [Option.map_some'] at hv
    have hw : w = v := PVal.num.inj (Option.some.inj hv)
    subst hw
    rw [List.getElem?_drop] at hr
    have hjlt : p - 1 + (i - p) < (rsiValues pr p).length := by
      have := List.getElem?_eq_some_iff.mp hr
      exact this.1
    rw [rsiValues_length] at hjlt
    have hj : p - 1 + (i - p) = i - 1 := by omega
    rw [hj] at hr
    unfold rsiValues at hr
    rw [List.getElem?_map, List.getElem?_range (by omega : i - 1 < pr.length - 1),
      Option.map_some'] at hr
    have hwv := Option.some.inj hr
    dsimp only at hwv
    have hag : 0 ≤ (rsiAvgGain pr p).getD (i - 1) 0 := by
      refine getD_nonneg_of_all _ _ ?_
      exact wilderAvg_nonneg _ p hp (rsiGains_nonneg pr)
    have hal : 0 ≤ (rsiAvgLoss pr p).getD (i - 1) 0 := by
      refine getD_nonneg_of_all _ _ ?_
      exact wilderAvg_nonneg _ p hp (rsiLosses_nonneg pr)
    by_cases hz : (rsiAvgLoss pr p).getD (i - 1) 0 = 0
    · rw [if_pos hz] at hwv
      exact ⟨⟨by rw [← hwv]; norm_num, by rw [← hwv]⟩, fun _ => hwv.symm⟩
    · rw [if_neg hz] at hwv
      have halpos : 0 < (rsiAvgLoss pr p).getD (i - 1) 0 :=
        lt_of_le_of_ne hal (Ne.symm hz)
      have hrs : 0 ≤ (rsiAvgGain pr p).getD (i - 1) 0 /
          (rsiAvgLoss pr p).getD (i - 1) 0 := by positivity
      have h1rs : (1:ℚ) ≤ 1 + (rsiAvgGain pr p).getD (i - 1) 0 /
          (rsiAvgLoss pr p).getD (i - 1) 0 := by linarith
      have hfrac1 : 100 / (1 + (rsiAvgGain pr p).getD (i - 1) 0 /
          (rsiAvgLoss pr p).getD (i - 1) 0) ≤ 100 := by
        rw [div_le_iff (by linarith)]
        nlinarith
      have hfrac0 : 0 < 100 / (1 + (rsiAvgGain pr p).getD (i - 1) 0 /
          (rsiAvgLoss pr p).getD (i - 1) 0) := by positivity
      refine ⟨⟨by rw [← hwv]; linarith, by rw [← hwv]; linarith⟩,
        fun hcontra => absurd hcontra hz⟩

/-- C4 witness: `C4_rsi` applied to the rising series `[1, 2, 3]` with
`period = 1`, whose average loss is `0` and whose defined RSI values are
exactly `100`. -/
theorem C4_rsi_witness :
    ((0:ℚ) ≤ 100 ∧ (100:ℚ) ≤ 100) ∧
      ((rsiAvgLoss [1, 2, 3] 1).getD 0 0 = 0 → (100:ℚ) = 100) := by
  refine C4_rsi [1, 2, 3] 1 1 100 (by norm_num) (by norm_num) ?_
  norm_num [calculate_rsi, rsiValues, rsiAvgGain, rsiAvgLoss, wilderAvg,
    rsiGains, rsiLosses, List.scanl, List.range_succ, List.replicate_succ]

/-! ### Claims C3 and C9: merge_and_dedupe_ohlc -/

/-- Distinct `time` keys, as the pairwise relation the dict arguments need. -/
def TimesNodup (l : List Candle) : Prop :=
  List.Pairwise (fun a b => a.time ≠ b.time) l

/-- Ascending, necessarily duplicate-free, `time` keys. -/
def TimesSorted (l : List Candle) : Prop :=
  List.Pairwise (fun a b => a.time < b.time) l

theorem TimesSorted.nodup {l : List Candle} (h : TimesSorted l) :
    TimesNodup l :=
  h.imp (fun hab => by omega)

theorem map_self_of {α : Type} (f : α → α) (l : List α)
    (h : ∀ a ∈ l, f a = a) : l.map f = l := by
  induction l with
  | nil => rfl
  | cons hd tl ih =>
    rw [List.map_cons, h hd (by simp), ih (fun a ha => h a (by simp [ha]))]

theorem dictUpsert_time_map (m : List Candle) (c : Candle) :
    (m.map fun x => if x.time = c.time then c else x).map Candle.time =
      m.map Candle.time := by
  rw [List.map_map]
  refine List.map_congr_left ?_
  intro a _
  by_cases h : a.time = c.time <;> simp [h]

theorem TimesNodup.upsert {m : List Candle} (h : TimesNodup m) (c : Candle) :
    TimesNodup (dictUpsert m c) := by
  unfold dictUpsert
  split
  · rename_i hany
    unfold TimesNodup at h ⊢
    rw [List.pairwise_map]
    refine h.imp_of_mem ?_
    intro a b _ _ hab
    by_cases ha : a.time = c.time <;> by_cases hb : b.time = c.time <;>
      simp [ha, hb] <;> omega
  · rename_i hany
    unfold TimesNodup at h ⊢
    rw [List.pairwise_append]
    refine ⟨h, by simp, ?_⟩
    intro a ha b hb
    rw [List.mem_singleton] at hb
    subst hb
    intro hcontra
    rw [List.any_eq_true] at hany
    exact hany ⟨a, ha, by simp [hcontra]⟩

theorem mem_dictUpsert_of_ne {m : List Candle} {y : Candle} (c : Candle)
    (hy : y ∈ m) (hne : y.time ≠ c.time) : y ∈ dictUpsert m c := by
  unfold dictUpsert
  split
  · rw [List.mem_map]
    exact ⟨y, hy, by simp [hne]⟩
  · simp [hy]

theorem self_mem_dictUpsert (m : List Candle) (c : Candle) :
    c ∈ dictUpsert m c := by
  unfold dictUpsert
  split
  · rename_i hany
    rw [List.any_eq_true] at hany
    obtain ⟨x, hx, hxt⟩ := hany
    rw [List.mem_map]
    exact ⟨x, hx, by simp at hxt; simp [hxt]⟩
  · simp

theorem eq_of_mem_of_time_eq {m : List Candle} (h : TimesNodup m)
    {a c : Candle} (ha : a ∈ m) (hc : c ∈ m) (ht : a.time = c.time) :
    a = c := by
  induction m with
  | nil => simp at ha
  | cons hd tl ih =>
    unfold TimesNodup at h
    rw [List.pairwise_cons] at h
    rcases List.mem_cons.mp ha with rfl | ha' <;>
      rcases List.mem_cons.mp hc with rfl | hc'
    · rfl
    · exact absurd ht (h.1 c hc')
    · exact absurd ht.symm (h.1 a ha')
    · exact ih h.2 ha' hc'

theorem dictUpsert_of_mem {m : List Candle} {c : Candle} (h : TimesNodup m)
    (hc : c ∈ m) : dictUpsert m c = m := by
  unfold dictUpsert
  rw [if_pos (List.any_eq_true.mpr ⟨c, hc, by simp⟩)]
  refine map_self_of _ _ ?_
  intro a ha
  by_cases hat : a.time = c.time
  · rw [if_pos hat]
    exact (eq_of_mem_of_time_eq h ha hc hat).symm
  · rw [if_neg hat]

theorem dictUpsert_append_of_no_key {m : List Candle} {c : Candle}
    (h : ∀ y ∈ m, y.time ≠ c.time) : dictUpsert m c = m ++ [c] := by
  unfold dictUpsert
  rw [if_neg]
  rw [List.any_eq_true]
  rintro ⟨x, hx, hxt⟩
  simp at hxt
  exact h x hx hxt

theorem foldl_dictUpsert_of_nodup :
    ∀ (l acc : List Candle), TimesNodup (acc ++ l) →
      l.foldl dictUpsert acc = acc ++ l := by
  intro l
  induction l with
  | nil => intro acc _; simp
  | cons hd tl ih =>
    intro acc h
    rw [List.foldl_cons]
    have hkey : ∀ y ∈ acc, y.time ≠ hd.time := by
      intro y hy
      unfold TimesNodup at h
      rw [List.pairwise_append] at h
      exact h.2.2 y hy hd (by simp)
    rw [dictUpsert_append_of_no_key hkey]
    rw [ih (acc ++ [hd]) (by simpa using h)]
    simp

theorem dictOfList_of_nodup {l : List Candle} (h : TimesNodup l) :
    dictOfList l = l := by
  unfold dictOfList
  simpa using foldl_dictUpsert_of_nodup l [] (by simpa using h)

theorem TimesNodup.foldl_upsert {m : List Candle} (h : TimesNodup m) :
    ∀ l : List Candle, TimesNodup (l.foldl dictUpsert m) := by
  intro l
  induction l generalizing m with
  | nil => simpa using h
  | cons hd tl ih => exact ih (h.upsert hd)

theorem TimesNodup.dictOfList (l : List Candle) : TimesNodup (dictOfList l) :=
  TimesNodup.foldl_upsert (by unfold TimesNodup; simp) l

theorem mem_foldl_dictUpsert {b : Candle} :
    ∀ (l acc : List Candle), b ∈ acc → (∀ x ∈ l, x.time ≠ b.time) →
      b ∈ l.foldl dictUpsert acc := by
  intro l
  induction l with
  | nil => intro acc hb _; simpa using hb
  | cons hd tl ih =>
    intro acc hb hx
    rw [List.foldl_cons]
    refine ih (dictUpsert acc hd) ?_ (fun x hxm => hx x (by simp [hxm]))
    exact mem_dictUpsert_of_ne hd hb (fun he => hx hd (by simp) he.symm)

theorem foldl_dictUpsert_const {m : List Candle} :
    ∀ l : List Candle, (∀ b ∈ l, dictUpsert m b = m) →
      l.foldl dictUpsert m = m := by
  intro l
  induction l with
  | nil => intro _; rfl
  | cons hd tl ih =>
    intro h
    rw [List.foldl_cons, h hd (by simp)]
    exact ih (fun b hb => h b (by simp [hb]))

theorem dictOfList_append (S B : List Candle) :
    dictOfList (S ++ B) = B.foldl dictUpsert (dictOfList S) := by
  unfold dictOfList
  rw [List.foldl_append]

theorem mem_dictOfList_of_last {b : Candle} {S B : List Candle}
    (hb : b ∈ B) (hB : TimesNodup B) : b ∈ dictOfList (S ++ B) := by
  obtain ⟨B1, B2, rfl⟩ := List.append_of_mem hb
  have hsuff : ∀ x ∈ B2, x.time ≠ b.time := by
    intro x hx
    unfold TimesNodup at hB
    rw [List.pairwise_append] at hB
    have := hB.2.1
    rw [List.pairwise_cons] at this
    exact fun he => this.1 x hx he.symm
  have hassoc : S ++ (B1 ++ b :: B2) = (S ++ B1 ++ [b]) ++ B2 := by simp
  rw [hassoc, dictOfList_append]
  refine mem_foldl_dictUpsert B2 _ ?_ hsuff
  rw [dictOfList_append]
  simp only [List.foldl_cons, List.foldl_nil]
  exact self_mem_dictUpsert _ b

theorem dictUpsert_ne_nil (m : List Candle) (c : Candle) :
    dictUpsert m c ≠ [] := by
  unfold dictUpsert
  split
  · rename_i hany
    rw [List.any_eq_true] at hany
    obtain ⟨x, hx, _⟩ := hany
    cases m with
    | nil => simp at hx
    | cons hd tl => simp
  · simp

theorem foldl_dictUpsert_ne_nil :
    ∀ (l acc : List Candle), acc ≠ [] → l.foldl dictUpsert acc ≠ [] := by
  intro l
  induction l with
  | nil => intro acc h; simpa using h
  | cons hd tl ih =>
    intro acc _
    rw [List.foldl_cons]
    exact ih _ (dictUpsert_ne_nil acc hd)

theorem dictOfList_ne_nil {l : List Candle} (h : l ≠ []) :
    dictOfList l ≠ [] := by
  cases l with
  | nil => exact absurd rfl h
  | cons hd tl =>
    unfold dictOfList
    rw [List.foldl_cons]
    exact foldl_dictUpsert_ne_nil tl _ (dictUpsert_ne_nil [] hd)

theorem sortByTime_perm (l : List Candle) : (sortByTime l).Perm l :=
  List.mergeSort_perm l _

theorem sortByTime_sorted (l : List Candle) :
    List.Pairwise (fun a b : Candle => a.time ≤ b.time) (sortByTime l) := by
  have h := @List.sorted_mergeSort Candle
    (fun a b : Candle => decide (a.time ≤ b.time))
    (fun a b c : Candle => by
      intro h1 h2
      simp only [decide_eq_true_eq] at h1 h2 ⊢
      omega)
    (fun a b : Candle => by
      simp only [Bool.or_eq_true, decide_eq_true_eq]
      omega) l
  exact h.imp (fun hab => by simpa using hab)

theorem sortByTime_of_sorted {l : List Candle}
    (h : List.Pairwise (fun a b : Candle => a.time ≤ b.time) l) :
    sortByTime l = l :=
  List.mergeSort_of_sorted (h.imp (fun hab => by simpa using hab))

theorem TimesNodup.of_perm {l1 l2 : List Candle} (hp : l1.Perm l2)
    (h : TimesNodup l1) : TimesNodup l2 :=
  (hp.pairwise_iff (by intro x y hab; exact Ne.symm hab)).mp h

theorem merge_self_of_sorted {S : List Candle} (hS : TimesSorted S) :
    merge_and_dedupe_ohlc S S = S := by
  unfold merge_and_dedupe_ohlc
  by_cases hnil : S = []
  · simp [hnil]
  · rw [if_neg hnil, if_neg hnil]
    rw [dictOfList_of_nodup hS.nodup]
    rw [foldl_dictUpsert_const S (fun b hb => dictUpsert_of_mem hS.nodup hb)]
    exact sortByTime_of_sorted (hS.imp (fun hab => by omega))

theorem merge_result_strict_sorted {S B : List Candle} (hS : S ≠ [])
    (hB : B ≠ []) : TimesSorted (merge_and_dedupe_ohlc S B) := by
  unfold merge_and_dedupe_ohlc
  rw [if_neg hS, if_neg hB]
  rw [← dictOfList_append]
  have hnd : TimesNodup (sortByTime (dictOfList (S ++ B))) :=
    TimesNodup.of_perm (sortByTime_perm _).symm (TimesNodup.dictOfList _)
  have hsorted := sortByTime_sorted (dictOfList (S ++ B))
  unfold TimesSorted
  unfold TimesNodup at hnd
  exact (hsorted.and hnd).imp (fun hab => by omega)

theorem merge_twice_eq_once {S B : List Candle} (hS : TimesSorted S)
    (hB : TimesSorted B) :
    merge_and_dedupe_ohlc (merge_and_dedupe_ohlc S B) B =
      merge_and_dedupe_ohlc S B := by
  by_cases hSnil : S = []
  · subst hSnil
    rw [show merge_and_dedupe_ohlc [] B = B from by unfold merge_and_dedupe_ohlc; simp]
    by_cases hBnil : B = []
    · subst hBnil
      rfl
    · exact merge_self_of_sorted hB
  · by_cases hBnil : B = []
    · subst hBnil
      rw [show merge_and_dedupe_ohlc S [] = S from by
        unfold merge_and_dedupe_ohlc; rw [if_neg hSnil]; simp]
      rw [show merge_and_dedupe_ohlc S [] = S from by
        unfold merge_and_dedupe_ohlc; rw [if_neg hSnil]; simp]
    · -- both non-empty: the merged result M absorbs a second merge with B
      have hMsorted := merge_result_strict_sorted hSnil hBnil
      have hMnil : merge_and_dedupe_ohlc S B ≠ [] := by
        unfold merge_and_dedupe_ohlc
        rw [if_neg hSnil, if_neg hBnil]
        rw [← dictOfList_append]
        intro hcontra
        have hperm := sortByTime_perm (dictOfList (S ++ B))
        rw [hcontra] at hperm
        have := hperm.symm.eq_nil
        exact dictOfList_ne_nil (by simp [hSnil]) this
      have hmemM : ∀ b ∈ B, b ∈ merge_and_dedupe_ohlc S B := by
        intro b hb
        unfold merge_and_dedupe_ohlc
        rw [if_neg hSnil, if_neg hBnil]
        rw [← dictOfList_append]
        exact (sortByTime_perm _).symm.subset
          (mem_dictOfList_of_last hb hB.nodup)
      conv_lhs => rw [merge_and_dedupe_ohlc]
      rw [if_neg hMnil, if_neg hBnil]
      rw [dictOfList_of_nodup hMsorted.nodup]
      rw [foldl_dictUpsert_const B
        (fun b hb => dictUpsert_of_mem hMsorted.nodup (hmemM b hb))]
      exact sortByTime_of_sorted (hMsorted.imp (fun hab => by omega))

/-- C3: merging a time-sorted, duplicate-free `CandleSeries` with itself is
the identity, and — more generally — merging the same batch a second time
changes nothing: `merge(merge(S,B),B) = merge(S,B)`. -/
theorem C3_merge_idempotent (S B : List Candle) (hS : TimesSorted S)
    (hB : TimesSorted B) :
    merge_and_dedupe_ohlc S S = S ∧
      merge_and_dedupe_ohlc (merge_and_dedupe_ohlc S B) B =
        merge_and_dedupe_ohlc S B :=
  ⟨merge_self_of_sorted hS, merge_twice_eq_once hS hB⟩

/-- C3 witness: the idempotence theorem applied to a concrete two-candle
snapshot and a one-candle batch that overwrites its second timestamp. -/
theorem C3_merge_idempotent_witness :
    (merge_and_dedupe_ohlc
        [⟨1, 10, 11, 9, 10, 5⟩, ⟨2, 10, 12, 9, 11, 6⟩]
        [⟨1, 10, 11, 9, 10, 5⟩, ⟨2, 10, 12, 9, 11, 6⟩] =
      [⟨1, 10, 11, 9, 10, 5⟩, ⟨2, 10, 12, 9, 11, 6⟩]) ∧
    (merge_and_dedupe_ohlc
        (merge_and_dedupe_ohlc
          [⟨1, 10, 11, 9, 10, 5⟩, ⟨2, 10, 12, 9, 11, 6⟩]
          [⟨2, 10, 12, 9, 11, 7⟩])
        [⟨2, 10, 12, 9, 11, 7⟩] =
      merge_and_dedupe_ohlc
        [⟨1, 10, 11, 9, 10, 5⟩, ⟨2, 10, 12, 9, 11, 6⟩]
        [⟨2, 10, 12, 9, 11, 7⟩]) := by
  refine C3_merge_idempotent _ _ ?_ ?_
  · unfold TimesSorted
    norm_num
  · unfold TimesSorted
    norm_num

/-- C9: an empty (falsy) old side makes `merge_and_dedupe_ohlc` return the
new batch exactly as given — unsorted and with duplicate keys preserved — and
an empty new batch returns the old data unchanged; the merge result is
guaranteed strictly time-sorted with unique keys when both sides are
non-empty. -/
theorem C9_merge_empty_sides :
    (∀ B : List Candle, merge_and_dedupe_ohlc [] B = B) ∧
    (∀ S : List Candle, merge_and_dedupe_ohlc S [] = S) ∧
    (merge_and_dedupe_ohlc [] [⟨2, 0, 0, 0, 0, 0⟩, ⟨1, 0, 0, 0, 0, 0⟩] =
        [⟨2, 0, 0, 0, 0, 0⟩, ⟨1, 0, 0, 0, 0, 0⟩] ∧
      ¬ TimesSorted [(⟨2, 0, 0, 0, 0, 0⟩ : Candle), ⟨1, 0, 0, 0, 0, 0⟩]) ∧
    (merge_and_dedupe_ohlc [] [⟨1, 0, 0, 0, 0, 0⟩, ⟨1, 1, 1, 1, 1, 1⟩] =
        [⟨1, 0, 0, 0, 0, 0⟩, ⟨1, 1, 1, 1, 1, 1⟩] ∧
      ¬ TimesNodup [(⟨1, 0, 0, 0, 0, 0⟩ : Candle), ⟨1, 1, 1, 1, 1, 1⟩]) ∧
    (∀ S B : List Candle, S ≠ [] → B ≠ [] →
      TimesSorted (merge_and_dedupe_ohlc S B)) := by
  refine ⟨?_, ?_, ⟨rfl, ?_⟩, ⟨rfl, ?_⟩, ?_⟩
  · intro B
    unfold merge_and_dedupe_ohlc
    simp
  · intro S
    by_cases h : S = []
    · subst h
      rfl
    · unfold merge_and_dedupe_ohlc
      rw [if_neg h]
      simp
  · unfold TimesSorted
    norm_num
  · unfold TimesNodup
    norm_num
  · intro S B hS hB
    exact merge_result_strict_sorted hS hB

/-- C9 witness: the sorted-result conjunct applied to concrete non-empty
sides. -/
theorem C9_merge_empty_sides_witness :
    TimesSorted (merge_and_dedupe_ohlc [⟨1, 10, 11, 9, 10, 5⟩]
      [⟨2, 10, 12, 9, 11, 7⟩]) := by
  refine C9_merge_empty_sides.2.2.2.2 _ _ ?_ ?_ <;> simp

/-! ### Claims C6, C7, C8, C10: store, cache manager, builder -/

theorem ohlcFullFetch_all_failed (env : OhlcEnv)
    (hpoly : env.polygon = Option.none ∨ env.polygon = some [])
    (hkraken : env.kraken = Option.none ∨ env.kraken = some [])
    (cached : List Candle) : ohlcFullFetch env cached = cached := by
  unfold ohlcFullFetch
  rcases hpoly with hp | hp <;> rcases hkraken with hk | hk <;>
    · simp only [hp, hk, Option.getD_some, Option.getD_none]
      simp only [if_pos rfl, ne_eq, not_true_eq_false, if_false,
        not_false_eq_true]
      split <;> simp_all

/-- C6: when the incremental fetch fails and both full-fetch sources
(primary and fallback) fail, `get_btc_ohlc_with_cache` returns the durable
snapshot, and returns the empty series exactly when no durable snapshot
exists. -/
theorem C6_store_serves_snapshot (env : OhlcEnv)
    (hinc : env.incremental = Option.none)
    (hpoly : env.polygon = Option.none ∨ env.polygon = some [])
    (hkraken : env.kraken = Option.none ∨ env.kraken = some []) :
    get_btc_ohlc_with_cache env = env.cached.getD [] ∧
      (get_btc_ohlc_with_cache env = [] ↔ env.cached.getD [] = []) := by
  have hmain : get_btc_ohlc_with_cache env = env.cached.getD [] := by
    unfold get_btc_ohlc_with_cache
    simp only [hinc]
    split
    · rfl
    · split
      · exact ohlcFullFetch_all_failed env hpoly hkraken _
      · exact ohlcFullFetch_all_failed env hpoly hkraken _
  exact ⟨hmain, by rw [hmain]⟩

/-- C6 witness: with a one-candle snapshot and every source failing, the
store returns exactly that snapshot. -/
theorem C6_store_serves_snapshot_witness :
    get_btc_ohlc_with_cache
      ⟨some [⟨1, 10, 11, 9, 10, 5⟩], false, Option.none, Option.none,
        Option.none⟩ = [⟨1, 10, 11, 9, 10, 5⟩] := by
  have h := C6_store_serves_snapshot
    ⟨some [⟨1, 10, 11, 9, 10, 5⟩], false, Option.none, Option.none,
      Option.none⟩ rfl (Or.inl rfl) (Or.inl rfl)
  simpa using h.1

theorem get_ohlc_empty_of_no_snapshot (env : OhlcEnv)
    (hcache : env.cached = Option.none)
    (hpoly : env.polygon = Option.none ∨ env.polygon = some [])
    (hkraken : env.kraken = Option.none ∨ env.kraken = some []) :
    get_btc_ohlc_with_cache env = [] := by
  unfold get_btc_ohlc_with_cache
  simp only [hcache, Option.getD_none]
  have hff := ohlcFullFetch_all_failed env hpoly hkraken []
  split
  · rename_i h
    exact absurd rfl h.2
  · split
    · rename_i h
      exact absurd rfl h.1
    · exact hff

/-- C7: when both external sources fail and neither a memory-tier dataset,
a durable full-data snapshot, nor a durable OHLC snapshot exists, the
chart-data endpoint yields the explicit no-data response (the literal
`{'error': 'No data available', 'ohlc': [], 'indicators': {}}` dict), never
a partially populated dataset. -/
theorem C7_no_data_response (env : ChartEnv)
    (hmem : env.memory = Option.none)
    (hpq : env.parquetFull = Option.none)
    (hcache : env.ohlc.cached = Option.none)
    (hpoly : env.ohlc.polygon = Option.none ∨ env.ohlc.polygon = some [])
    (hkraken : env.ohlc.kraken = Option.none ∨ env.ohlc.kraken = some []) :
    (get_bitcoin_chart_data env).1 = ChartResult.noData := by
  have hohlc := get_ohlc_empty_of_no_snapshot env.ohlc hcache hpoly hkraken
  have hfull : (get_full_chart_data env).1 = Option.none := by
    unfold get_full_chart_data
    rw [if_neg (by simp [hmem])]
    simp only [hmem, hpq]
    unfold load_full_data_cache
    simp only [hohlc]
    simp
  unfold get_bitcoin_chart_data
  cases hg : (get_full_chart_data env).1 with
  | none =>
    simp only [hg]
    simp [hohlc]
  | some d => rw [hg] at hfull; simp at hfull

/-- C7 witness: the no-data response at a fully failed concrete
environment. -/
theorem C7_no_data_response_witness :
    (get_bitcoin_chart_data
      ⟨Option.none, false, Option.none,
        ⟨Option.none, false, Option.none, Option.none, Option.none⟩,
        fun _ => 0⟩).1 = ChartResult.noData :=
  C7_no_data_response _ rfl rfl rfl (Or.inl rfl) (Or.inl rfl)

/-- C8: `build_full_data_cache` returns no dataset at all for input shorter
than 50 candles (including the empty series), and for input of at least 50
candles returns a dataset containing exactly the fixed set of named raw and
indicator series. -/
theorem C8_builder_minimum (std : List ℚ → ℚ) (ohlc : List Candle) :
    (ohlc.length < 50 → build_full_data_cache std ohlc = Option.none) ∧
      (50 ≤ ohlc.length → ∃ d, build_full_data_cache std ohlc = some d ∧
        d.map Prod.fst = fullDataKeys) := by
  constructor
  · intro h
    unfold build_full_data_cache
    rw [if_pos (Or.inr h)]
  · intro h
    unfold build_full_data_cache
    rw [if_neg]
    · exact ⟨_, rfl, rfl⟩
    · rintro (hnil | hshort)
      · rw [hnil] at h
        simp at h
      · omega

/-- C8 witness: the builder refuses the empty series and accepts a
50-candle series, producing the full key set. -/
theorem C8_builder_minimum_witness :
    build_full_data_cache (fun _ => 0) [] = Option.none ∧
      ∃ d, build_full_data_cache (fun _ => 0)
          (List.replicate 50 ⟨1, 1, 1, 1, 1, 1⟩) = some d ∧
        d.map Prod.fst = fullDataKeys := by
  constructor
  · exact (C8_builder_minimum (fun _ => 0) []).1 (by simp)
  · exact (C8_builder_minimum (fun _ => 0)
      (List.replicate 50 ⟨1, 1, 1, 1, 1, 1⟩)).2 (by simp)

/-- C10: whatever `sanitize_for_json` produces is free of NaN (and of
infinities, which the rational embedding cannot even represent); both
memory-tier writers — `save_full_data_cache` and the parquet-populating
path of `load_full_data_cache` — preserve the invariant that the memory
tier only ever holds sanitized datasets. -/
theorem C10_memory_tier_sanitized :
    (∀ d : FullData, SanitizedData (sanitize_for_json d)) ∧
    (∀ d : FullData, MemInv (save_full_data_cache d)) ∧
    (∀ (m p : Option FullData), MemInv m →
      MemInv (load_full_data_cache m p).2) := by
  have hsan : ∀ d : FullData, SanitizedData (sanitize_for_json d) := by
    intro d kv hkv v hv
    unfold sanitize_for_json at hkv
    rw [List.mem_map] at hkv
    obtain ⟨kv0, _, rfl⟩ := hkv
    simp only at hv
    rw [List.mem_map] at hv
    obtain ⟨x, _, rfl⟩ := hv
    split
    · simp
    · assumption
  refine ⟨hsan, ?_, ?_⟩
  · intro d d' heq
    unfold save_full_data_cache at heq
    rw [Option.some.injEq] at heq
    rw [← heq]
    exact hsan d
  · intro m p hm
    unfold load_full_data_cache
    cases m with
    | some d => exact hm
    | none =>
      cases p with
      | some raw =>
        intro d' heq
        rw [Option.some.injEq] at heq
        rw [← heq]
        exact hsan raw
      | none =>
        intro d' heq
        simp at heq

/-- C10 witness: loading a parquet dataset that contains a NaN column entry
populates the memory tier with its sanitized form. -/
theorem C10_memory_tier_sanitized_witness :
    MemInv (load_full_data_cache Option.none
      (some [("stoch_d", [PVal.nan, PVal.num 3])])).2 :=
  C10_memory_tier_sanitized.2.2 Option.none
    (some [("stoch_d", [PVal.nan, PVal.num 3])])
    (fun d heq => by simp at heq)
